import Mathlib

/-!
Verification of the LoopDeck import/normalization core.

This file gives a shallow embedding, in Lean 4, of the format-detection,
trace-adapter and generic-normalization code of the LoopDeck repository
(src/lib/utils.ts, src/lib/adapters/index.ts, src/lib/adapters/langsmith.ts,
src/lib/adapters/otel.ts), and proves properties of that embedding.

Modelling conventions:
* Parsed JSON values are modelled by the inductive type `Json`.  JavaScript
  `undefined` (an absent object field) is modelled by `Option Json` at every
  access site (`jGet` returns `none` for a missing key), while JSON `null` is
  the value `Json.null`.  Numbers are modelled as integers: no claim checked
  here depends on fractional values, and `NaN` (which can only arise from
  `Number(..)` coercion of non-numeric data) is modelled as `0` — no claim
  depends on that coercion either.
* JavaScript truthiness is modelled by `jTruthy`; the `a || b` idiom of the
  source is modelled by `jFirstTruthy` / `jFirstTruthyOpt`.
* Platform functions that are not part of the repository are modelled
  explicitly: `String()` coercion (`jsToString`), `JSON.stringify`
  (`jsonStringify`), `String.prototype.split/trim/toLowerCase/includes`
  (`jsSplitOnChar`, `jsTrim`, `jsToLower`, `strIncludes`), and the
  nondeterministic / environment-dependent `uuidv4()`, `new Date(...)`,
  `Date.prototype.toISOString` as components of a `JsEnv` parameter threaded
  through the embedding.  `JSON.parse` is taken as an explicit function
  parameter of the import orchestrator.
* Code paths on which the JavaScript source would throw a `TypeError`
  (e.g. `child_runs` present but not an array, so that `.flatMap` is applied
  to a non-array) are modelled as benign defaults; every theorem below stays
  on inputs where the source does not throw, and the orchestrator's
  `try/catch` error accounting is exercised only through the JSON-parse
  failure path that the claims mention.
-/

namespace LoopDeck

set_option maxRecDepth 10000

/-- A parsed JSON value (the result of `JSON.parse`).  Object fields are kept
in insertion order, as JavaScript does. -/
inductive Json where
  | null
  | bool (b : Bool)
  | num (n : Int)
  | str (s : String)
  | arr (elems : List Json)
  | obj (fields : List (String × Json))
deriving Inhabited

mutual

/-- Structural equality of JSON values (used to model JavaScript `===` and
`Map`/`Set` key equality on the primitive values the claims exercise). -/
def Json.beq : Json → Json → Bool
  | .null, .null => true
  | .bool a, .bool b => a == b
  | .num a, .num b => a == b
  | .str a, .str b => a == b
  | .arr xs, .arr ys => Json.beqList xs ys
  | .obj xs, .obj ys => Json.beqFields xs ys
  | _, _ => false

/-- Pointwise `Json.beq` on element lists. -/
def Json.beqList : List Json → List Json → Bool
  | [], [] => true
  | x :: xs, y :: ys => Json.beq x y && Json.beqList xs ys
  | _, _ => false

/-- Pointwise `Json.beq` on field lists. -/
def Json.beqFields : List (String × Json) → List (String × Json) → Bool
  | [], [] => true
  | (k1, v1) :: xs, (k2, v2) :: ys => k1 == k2 && Json.beq v1 v2 && Json.beqFields xs ys
  | _, _ => false

end

theorem Json.one_le_sizeOf (a : Json) : 1 ≤ sizeOf a := by
  cases a <;> simp

theorem Json.beqList_iff (xs ys : List Json)
    (h : ∀ x ∈ xs, ∀ b, (Json.beq x b = true) ↔ x = b) :
    (Json.beqList xs ys = true) ↔ xs = ys := by
  induction xs generalizing ys with
  | nil => cases ys <;> simp [Json.beqList]
  | cons x xs ih =>
    cases ys with
    | nil => simp [Json.beqList]
    | cons y ys =>
      simp only [Json.beqList, Bool.and_eq_true, List.cons.injEq]
      rw [h x (List.mem_cons_self x xs) y,
        ih ys (fun a ha b => h a (List.mem_cons_of_mem _ ha) b)]

theorem Json.beqFields_iff (xs ys : List (String × Json))
    (h : ∀ p ∈ xs, ∀ b, (Json.beq p.2 b = true) ↔ p.2 = b) :
    (Json.beqFields xs ys = true) ↔ xs = ys := by
  induction xs generalizing ys with
  | nil => cases ys <;> simp [Json.beqFields]
  | cons x xs ih =>
    obtain ⟨k, v⟩ := x
    cases ys with
    | nil => simp [Json.beqFields]
    | cons y ys =>
      obtain ⟨k2, v2⟩ := y
      simp only [Json.beqFields, Bool.and_eq_true, List.cons.injEq, Prod.mk.injEq, beq_iff_eq]
      rw [h (k, v) (List.mem_cons_self _ xs) v2,
        ih ys (fun a ha b => h a (List.mem_cons_of_mem _ ha) b)]

theorem Json.beq_iff : ∀ (a b : Json), (Json.beq a b = true) ↔ a = b := by
  have H : ∀ (n : Nat) (a b : Json), sizeOf a ≤ n → ((Json.beq a b = true) ↔ a = b) := by
    intro n
    induction n with
    | zero =>
      intro a b h
      exact absurd (Nat.le_trans (Json.one_le_sizeOf a) h) (by omega)
    | succ n ih =>
      intro a b hle
      cases a with
      | null => cases b <;> simp [Json.beq]
      | bool x => cases b <;> simp [Json.beq]
      | num x => cases b <;> simp [Json.beq]
      | str x => cases b <;> simp [Json.beq]
      | arr xs =>
        cases b with
        | arr ys =>
          simp only [Json.beq, Json.arr.injEq]
          refine Json.beqList_iff xs ys (fun x hx b => ih x b ?_)
          have h1 := List.sizeOf_lt_of_mem hx
          simp only [Json.arr.sizeOf_spec] at hle
          omega
        | null => simp [Json.beq]
        | bool _ => simp [Json.beq]
        | num _ => simp [Json.beq]
        | str _ => simp [Json.beq]
        | obj _ => simp [Json.beq]
      | obj xs =>
        cases b with
        | obj ys =>
          simp only [Json.beq, Json.obj.injEq]
          refine Json.beqFields_iff xs ys (fun p hp b => ih p.2 b ?_)
          have h1 := List.sizeOf_lt_of_mem hp
          have h2 : sizeOf p.2 < sizeOf p := by
            obtain ⟨a, c⟩ := p
            simp only [Prod.mk.sizeOf_spec]
            omega
          simp only [Json.obj.sizeOf_spec] at hle
          omega
        | null => simp [Json.beq]
        | bool _ => simp [Json.beq]
        | num _ => simp [Json.beq]
        | str _ => simp [Json.beq]
        | arr _ => simp [Json.beq]
  intro a b
  exact H (sizeOf a) a b (Nat.le_refl _)

instance : BEq Json := ⟨Json.beq⟩

instance : LawfulBEq Json where
  eq_of_beq h := (Json.beq_iff _ _).mp h
  rfl := (Json.beq_iff _ _).mpr rfl

instance : DecidableEq Json := fun a b =>
  decidable_of_iff (Json.beq a b = true) (Json.beq_iff a b)

/-- First-match association-list lookup, the model of JavaScript property
access `obj[key]` for parsed JSON objects (whose keys are unique). -/
def fieldsLookup : List (String × Json) → String → Option Json
  | [], _ => none
  | (k, v) :: rest, key => if k = key then some v else fieldsLookup rest key

/-- Property access `j[k]`: `none` models JavaScript `undefined`. -/
def jGet (j : Json) (k : String) : Option Json :=
  match j with
  | .obj fields => fieldsLookup fields k
  | _ => none

/-- The JavaScript `k in j` operator on parsed-JSON values. -/
def hasKey (j : Json) (k : String) : Bool :=
  match j with
  | .obj fields => fields.any (fun p => p.1 == k)
  | _ => false

/-- JavaScript truthiness of a parsed-JSON value (there is no `NaN` in the
model; see the header). -/
def jTruthy : Json → Bool
  | .null => false
  | .bool b => b
  | .num n => n != 0
  | .str s => !(s == "")
  | .arr _ => true
  | .obj _ => true

/-- Truthiness of a possibly-`undefined` value. -/
def jOptTruthy (o : Option Json) : Bool :=
  match o with
  | some v => jTruthy v
  | none => false

/-- The `a || b || ... || d` idiom, where `d` is the final (literal) default:
the first truthy value wins, otherwise `d` is returned. -/
def jFirstTruthy : List (Option Json) → Json → Json
  | [], d => d
  | o :: rest, d =>
    match o with
    | some v => if jTruthy v then v else jFirstTruthy rest d
    | none => jFirstTruthy rest d

/-- The `a || b || c` idiom where the last operand is itself a lookup:
the first truthy value wins, otherwise the last value (possibly `undefined`,
possibly falsy) is returned. -/
def jFirstTruthyOpt : List (Option Json) → Option Json
  | [] => none
  | [o] => o
  | o :: rest =>
    match o with
    | some v => if jTruthy v then some v else jFirstTruthyOpt rest
    | none => jFirstTruthyOpt rest

theorem sizeOf_fieldsLookup {fields : List (String × Json)} {key : String} {v : Json}
    (h : fieldsLookup fields key = some v) : sizeOf v < sizeOf fields := by
  induction fields with
  | nil => simp [fieldsLookup] at h
  | cons p rest ih =>
    obtain ⟨k, w⟩ := p
    simp only [fieldsLookup] at h
    split at h
    · cases h
      simp only [List.cons.sizeOf_spec, Prod.mk.sizeOf_spec]
      omega
    · have := ih h
      simp only [List.cons.sizeOf_spec]
      omega

theorem sizeOf_jGet {j v : Json} {k : String} (h : jGet j k = some v) :
    sizeOf v < sizeOf j := by
  cases j with
  | obj fields =>
    simp only [jGet] at h
    have := sizeOf_fieldsLookup h
    simp only [Json.obj.sizeOf_spec]
    omega
  | null => simp [jGet] at h
  | bool b => simp [jGet] at h
  | num n => simp [jGet] at h
  | str s => simp [jGet] at h
  | arr xs => simp [jGet] at h

mutual

/-- Model of JavaScript `String(x)` on parsed-JSON values: `null` prints as
`"null"`, arrays join their elements with `","` (with `null` elements printing
as the empty string), and plain objects print as `"[object Object]"`. -/
def jsToString : Json → String
  | .null => "null"
  | .bool b => cond b "true" "false"
  | .num n => toString n
  | .str s => s
  | .arr xs => jsJoinElems xs
  | .obj _ => "[object Object]"

/-- `Array.prototype.join(",")` as used by `String(array)`. -/
def jsJoinElems : List Json → String
  | [] => ""
  | [j] => jsElem j
  | j :: rest => jsElem j ++ "," ++ jsJoinElems rest

/-- One array element under `Array.prototype.join`: `null` joins as `""`. -/
def jsElem : Json → String
  | .null => ""
  | .bool b => cond b "true" "false"
  | .num n => toString n
  | .str s => s
  | .arr xs => jsJoinElems xs
  | .obj _ => "[object Object]"

end

/-- JSON string escaping for `jsonStringify` (quote, backslash, and the
common control characters; other code points are left as-is, which is all the
inputs in this development exercise). -/
def jsonEscapeChar (c : Char) : String :=
  if c = '"' then "\\\""
  else if c = '\\' then "\\\\"
  else if c = '\n' then "\\n"
  else if c = '\t' then "\\t"
  else if c = '\r' then "\\r"
  else String.mk [c]

/-- Escape a string for JSON output. -/
def jsonEscape (s : String) : String :=
  String.join (s.data.map jsonEscapeChar)

mutual

/-- Model of the platform `JSON.stringify` on parsed-JSON values (no
`undefined` values exist in the model, so the skip-undefined rule of the real
function never fires). -/
def jsonStringify : Json → String
  | .null => "null"
  | .bool b => cond b "true" "false"
  | .num n => toString n
  | .str s => "\"" ++ jsonEscape s ++ "\""
  | .arr xs => "[" ++ jsonStringifyElems xs ++ "]"
  | .obj fs => "\x7b" ++ jsonStringifyFields fs ++ "\x7d"

/-- Comma-joined stringified array elements. -/
def jsonStringifyElems : List Json → String
  | [] => ""
  | [j] => jsonStringify j
  | j :: rest => jsonStringify j ++ "," ++ jsonStringifyElems rest

/-- Comma-joined stringified object fields. -/
def jsonStringifyFields : List (String × Json) → String
  | [] => ""
  | [(k, v)] => "\"" ++ jsonEscape k ++ "\":" ++ jsonStringify v
  | (k, v) :: rest =>
    "\"" ++ jsonEscape k ++ "\":" ++ jsonStringify v ++ "," ++ jsonStringifyFields rest

end

/-- Model of JavaScript `Number(x)` restricted to the integer world of this
embedding: `NaN` outcomes (non-numeric strings, multi-element arrays, plain
objects) are modelled as `0`; no claim checked in this file depends on a
`NaN`-producing coercion. -/
def jsNum : Json → Int
  | .null => 0
  | .bool b => cond b 1 0
  | .num n => n
  | .str s => if s.data.all Char.isDigit then (String.toNat? s).getD 0 else 0
  | .arr [] => 0
  | .arr [x] => jsNum x
  | .arr (_ :: _ :: _) => 0
  | .obj _ => 0

/-- Model of `String.prototype.split(sep)` for a one-character separator. -/
def jsSplitOnChar (c : Char) (s : String) : List String :=
  let groups := s.data.foldr
    (fun ch acc =>
      match acc with
      | [] => [[ch]]
      | g :: gs => if ch = c then [] :: (g :: gs) else (ch :: g) :: gs)
    [[]]
  groups.map (fun g => String.mk g)

/-- Model of `String.prototype.trim()`. -/
def jsTrim (s : String) : String :=
  String.mk ((s.data.dropWhile Char.isWhitespace).reverse.dropWhile Char.isWhitespace).reverse

/-- Model of `String.prototype.toLowerCase()` (ASCII, which covers every
string the source compares case-insensitively). -/
def jsLowerChar (c : Char) : Char :=
  if 'A' ≤ c ∧ c ≤ 'Z' then Char.ofNat (c.toNat + 32) else c

/-- ASCII lower-casing of a string. -/
def jsToLower (s : String) : String := String.mk (s.data.map jsLowerChar)

/-- Model of `String.prototype.includes(needle)`. -/
def strIncludes (hay needle : String) : Bool :=
  hay.data.tails.any (fun t => needle.data.isPrefixOf t)

/-- Model of `String.prototype.startsWith(prefixStr)`. -/
def strStartsWith (s p : String) : Bool := p.data.isPrefixOf s.data

/-- Environment of platform effects threaded through the embedding:
`now` models `new Date().toISOString()`, `uuid` is the (indexed) supply of
`uuidv4()` draws, `dateMs` models `new Date(x).getTime()`, and `msToIso`
models `new Date(ms).toISOString()`.  No claim depends on the concrete
values these produce. -/
structure JsEnv where
  now : String
  uuid : Nat → String
  dateMs : Json → Int
  msToIso : Int → String

/-- Span classification shared by both trace adapters
(src/types/review.ts `SpanType`). -/
inductive SpanType where
  | llm
  | retriever
  | chain
  | tool
  | embedding
  | unknown
deriving DecidableEq

/-- String form of a `SpanType`, as stored in `trace_metadata.span_type`. -/
def SpanType.toStr : SpanType → String
  | .llm => "llm"
  | .retriever => "retriever"
  | .chain => "chain"
  | .tool => "tool"
  | .embedding => "embedding"
  | .unknown => "unknown"

/-- True when an `Option Json` holds an array (`Array.isArray`). -/
def isArrOpt : Option Json → Bool
  | some (.arr _) => true
  | _ => false

/-- Replace the value of key `k` (every occurrence, as JavaScript spread
overriding does for the single occurrence an object has) or append the pair. -/
def objSet (fields : List (String × Json)) (k : String) (v : Json) : List (String × Json) :=
  if fields.any (fun p => decide (p.1 = k)) then
    fields.map (fun p => if p.1 = k then (k, v) else p)
  else fields ++ [(k, v)]

/-- The object-literal spread `\x7b ...data, k1: v1, ..., kn: vn \x7d`.
On a non-object (never reached on the guarded paths below) it yields just the
overrides. -/
def jSpreadWith (data : Json) (overrides : List (String × Json)) : Json :=
  match data with
  | .obj fs => .obj (overrides.foldl (fun acc p => objSet acc p.1 p.2) fs)
  | _ => .obj overrides

/-- Schema version stamped on every record (`SCHEMA_VERSION` in the source). -/
def SCHEMA_VERSION : Int := 1

/-- Detector for the already-canonical record shape
(src/lib/utils.ts `isReviewItemFormat`): `input` is a non-null object with a
`prompt` key, and `outputs` is an array. -/
def isReviewItemFormat (data : Json) : Bool :=
  match jGet data "input" with
  | some v =>
    (match v with
     | .obj _ => true
     | .arr _ => true
     | _ => false)
    && hasKey v "prompt"
    && isArrOpt (jGet data "outputs")
  | none => false

/-- Detector for an OpenAI chat-completion response
(src/lib/utils.ts `isOpenAIFormat`). -/
def isOpenAIFormat (data : Json) : Bool :=
  hasKey data "model" && hasKey data "choices" && isArrOpt (jGet data "choices")

/-- Detector for the OpenAI fine-tune `messages` shape
(src/lib/utils.ts `isOpenAIFineTuneFormat`). -/
def isOpenAIFineTuneFormat (data : Json) : Bool :=
  hasKey data "messages" && isArrOpt (jGet data "messages")

/-- Detector for the generic prompt/response shape
(src/lib/utils.ts `isGenericFormat`). -/
def isGenericFormat (data : Json) : Bool :=
  (hasKey data "prompt" || hasKey data "question" || hasKey data "input")
  && (hasKey data "response" || hasKey data "answer" || hasKey data "output"
      || hasKey data "completion")

/-- The `messages.find(m => m.role === role)` idiom of the fine-tune
converter. -/
def findRole (msgs : List Json) (role : String) : Option Json :=
  msgs.find? (fun m => jGet m "role" == some (.str role))

/-- Conversion of one OpenAI chat-completion response
(src/lib/utils.ts `convertOpenAIFormat`). -/
def convertOpenAIFormat (env : JsEnv) (data : Json) : Json :=
  let choices := match jGet data "choices" with
    | some (.arr xs) => xs
    | _ => []
  .obj [
    ("id", .str (env.uuid 0)),
    ("version", .num SCHEMA_VERSION),
    ("created_at", .str env.now),
    ("updated_at", .str env.now),
    ("status", .str "pending"),
    ("input", .obj [
      ("prompt", .str (jsToString (jFirstTruthy [jGet data "prompt"] (.str "")))),
      ("context_chunks", .arr [])]),
    ("outputs", .arr (choices.enum.map (fun p =>
      .obj [
        ("model_id", .str (jsToString
          (jFirstTruthy [jGet data "model"] (.str ("model_" ++ toString p.1))))),
        ("text", jFirstTruthy
          [(jGet p.2 "message").bind (fun m => jGet m "content"), jGet p.2 "text"]
          (.str "")),
        ("token_usage", .num (jsNum (jFirstTruthy
          [(jGet data "usage").bind (fun u => jGet u "total_tokens")] (.num 0)))),
        ("latency_ms", .num 0)]))),
    ("human_feedback", .obj [])]

/-- One context chunk of the fine-tune converter's `context` array. -/
def fineTuneChunk (env : JsEnv) (p : Nat × Json) : Json :=
  let chunk := p.2
  let metadata := jGet chunk "metadata"
  .obj ([
    ("id", .str (jsToString (jFirstTruthy [jGet chunk "id"] (.str (env.uuid (p.1 + 1)))))),
    ("text", .str (jsToString (jFirstTruthy [jGet chunk "text", jGet chunk "content"] (.str "")))),
    ("source", .str (jsToString (jFirstTruthy
      [jGet chunk "source", metadata.bind (fun m => jGet m "source")] (.str "unknown")))),
    ("score", .num (jsNum (jFirstTruthy [jGet chunk "score", jGet chunk "similarity"] (.num 0))))]
    ++ (match metadata with
        | some m => [("metadata", m)]
        | none => []))

/-- Conversion of one OpenAI fine-tune line
(src/lib/utils.ts `convertOpenAIFineTuneFormat`). -/
def convertOpenAIFineTuneFormat (env : JsEnv) (data : Json) : Json :=
  let messages := match jGet data "messages" with
    | some (.arr xs) => xs
    | _ => []
  let systemMessage := findRole messages "system"
  let userMessage := findRole messages "user"
  let assistantMessage := findRole messages "assistant"
  let contextChunks := match jGet data "context" with
    | some (.arr xs) => xs.enum.map (fineTuneChunk env)
    | _ => []
  .obj [
    ("id", .str (env.uuid 0)),
    ("version", .num SCHEMA_VERSION),
    ("created_at", .str env.now),
    ("updated_at", .str env.now),
    ("status", .str "pending"),
    ("input", .obj ([
      ("prompt", jFirstTruthy
        [userMessage.bind (fun m => jGet m "content")] (.str ""))]
      ++ (match systemMessage.bind (fun m => jGet m "content") with
          | some sp => [("system_prompt", sp)]
          | none => [])
      ++ [("context_chunks", .arr contextChunks)])),
    ("outputs", match assistantMessage with
      | some am => .arr [.obj ([
          ("model_id", .str (jsToString (jFirstTruthy [jGet data "model"] (.str "assistant"))))]
          ++ (match jGet am "content" with
              | some t => [("text", t)]
              | none => [])
          ++ [("token_usage", .num 0), ("latency_ms", .num 0)])]
      | none => .arr []),
    ("human_feedback", .obj [])]

/-- One context chunk read from the generic converter's nested
`input.context_chunks` array. -/
def genericInputChunk (env : JsEnv) (p : Nat × Json) : Json :=
  let chunk := p.2
  let metadata := jGet chunk "metadata"
  .obj ([
    ("id", .str (jsToString (jFirstTruthy [jGet chunk "id"] (.str (env.uuid (p.1 + 1)))))),
    ("text", .str (jsToString (jFirstTruthy [jGet chunk "text", jGet chunk "content"] (.str "")))),
    ("source", .str (jsToString (jFirstTruthy
      [jGet chunk "source", metadata.bind (fun m => jGet m "source")] (.str "unknown")))),
    ("score", .num (jsNum (jFirstTruthy
      [jGet chunk "score", jGet chunk "similarity", jGet chunk "relevance_score"] (.num 0))))]
    ++ (match metadata with
        | some m => [("metadata", m)]
        | none => []))

/-- One context chunk read from the generic converter's top-level
`context`/`contexts`/`documents`/`chunks` array. -/
def genericContextChunk (env : JsEnv) (base : Nat) (p : Nat × Json) : Json :=
  match p.2 with
  | .str s =>
    .obj [
      ("id", .str (env.uuid (base + p.1 + 1))),
      ("text", .str s),
      ("source", .str "document"),
      ("score", .num 0)]
  | chunk =>
    let metadata := jGet chunk "metadata"
    .obj ([
      ("id", .str (jsToString (jFirstTruthy [jGet chunk "id"]
        (.str (env.uuid (base + p.1 + 1)))))),
      ("text", .str (jsToString (jFirstTruthy
        [jGet chunk "text", jGet chunk "content", jGet chunk "page_content"] (.str "")))),
      ("source", .str (jsToString (jFirstTruthy
        [jGet chunk "source", metadata.bind (fun m => jGet m "source")] (.str "unknown")))),
      ("score", .num (jsNum (jFirstTruthy
        [jGet chunk "score", jGet chunk "similarity", jGet chunk "relevance_score"] (.num 0))))]
      ++ (match metadata with
          | some m => [("metadata", m)]
          | none => []))

/-- Conversion of one generic prompt/response object
(src/lib/utils.ts `convertGenericFormat`).  Note that the `outputs` array of
the result always holds exactly one entry, whatever the response text. -/
def convertGenericFormat (env : JsEnv) (data : Json) : Json :=
  let inputBranch :=
    match jGet data "input" with
    | some v =>
      ((match v with
        | .obj _ => true
        | .arr _ => true
        | _ => false)
       && hasKey v "prompt")
    | none => false
  let prompt :=
    if inputBranch then
      jsToString (jFirstTruthy [(jGet data "input").bind (fun i => jGet i "prompt")] (.str ""))
    else
      jsToString (jFirstTruthy
        [jGet data "prompt", jGet data "question", jGet data "input"] (.str ""))
  let systemPromptOpt :=
    if inputBranch then (jGet data "input").bind (fun i => jGet i "system_prompt")
    else jGet data "system_prompt"
  let inputChunks :=
    if inputBranch then
      match (jGet data "input").bind (fun i => jGet i "context_chunks") with
      | some (.arr xs) => xs.enum.map (genericInputChunk env)
      | _ => []
    else []
  let response := jsToString (jFirstTruthy
    [jGet data "response", jGet data "answer", jGet data "output", jGet data "completion"]
    (.str ""))
  let contextField := jFirstTruthyOpt
    [jGet data "context", jGet data "contexts", jGet data "documents", jGet data "chunks"]
  let extraChunks :=
    match contextField with
    | some (.arr xs) => xs.enum.map (genericContextChunk env inputChunks.length)
    | _ => []
  .obj ([
    ("id", .str (jsToString (jFirstTruthy [jGet data "id"] (.str (env.uuid 0))))),
    ("version", .num SCHEMA_VERSION),
    ("created_at", .str (jsToString (jFirstTruthy [jGet data "created_at"] (.str env.now)))),
    ("updated_at", .str env.now),
    ("status", .str "pending")]
    ++ (match jGet data "tags" with
        | some (.arr ts) => [("tags", .arr ts)]
        | _ => [])
    ++ [
    ("input", .obj ([("prompt", .str prompt)]
      ++ (match systemPromptOpt with
          | some sp => [("system_prompt", sp)]
          | none => [])
      ++ [("context_chunks", .arr (inputChunks ++ extraChunks))])),
    ("outputs", .arr [.obj [
      ("model_id", .str (jsToString (jFirstTruthy
        [jGet data "model", jGet data "model_id"] (.str "default")))),
      ("text", .str response),
      ("token_usage", .num (jsNum (jFirstTruthy
        [jGet data "tokens", jGet data "token_usage"] (.num 0)))),
      ("latency_ms", .num (jsNum (jFirstTruthy
        [jGet data "latency", jGet data "latency_ms"] (.num 0))))]]),
    ("human_feedback", .obj [])])

/-- The `Object.entries` enumeration used by the best-effort converter.
Primitive values enumerate to nothing relevant: a string's entries are its
single characters, all of length 1, which the `length > 10` filter below
discards, so they are modelled as the empty list. -/
def jsEntries (data : Json) : List (String × Json) :=
  match data with
  | .obj fs => fs
  | .arr xs => xs.enum.map (fun p => (toString p.1, p.2))
  | _ => []

/-- Best-effort conversion of an unrecognized object
(src/lib/utils.ts `convertBestEffort`): string-valued fields longer than ten
characters become prompt (first) and sole output text (second, if any). -/
def convertBestEffort (env : JsEnv) (data : Json) : Json :=
  let textFields := (jsEntries data).filterMap (fun p =>
    match p.2 with
    | .str s => if s.length > 10 then some (p.1, s) else none
    | _ => none)
  let prompt := match textFields.head? with
    | some p => p.2
    | none => jsonStringify data
  let response := match textFields.get? 1 with
    | some p => p.2
    | none => ""
  .obj [
    ("id", .str (env.uuid 0)),
    ("version", .num SCHEMA_VERSION),
    ("created_at", .str env.now),
    ("updated_at", .str env.now),
    ("status", .str "pending"),
    ("input", .obj [
      ("prompt", .str prompt),
      ("context_chunks", .arr [])]),
    ("outputs", if response == "" then .arr [] else .arr [.obj [
      ("model_id", .str "unknown"),
      ("text", .str response),
      ("token_usage", .num 0),
      ("latency_ms", .num 0)]]),
    ("human_feedback", .obj [])]

/-- The already-canonical pass-through of `normalizeToReviewItem`: spread the
source object and fill `id`/`version`/`created_at`/`updated_at`/`status`. -/
def passThroughReviewItem (env : JsEnv) (data : Json) : Json :=
  jSpreadWith data [
    ("id", jFirstTruthy [jGet data "id"] (.str (env.uuid 0))),
    ("version", .num SCHEMA_VERSION),
    ("created_at", jFirstTruthy [jGet data "created_at"] (.str env.now)),
    ("updated_at", .str env.now),
    ("status", jFirstTruthy [jGet data "status"] (.str "pending"))]

/-- The generic normalization chain (src/lib/utils.ts `normalizeToReviewItem`):
pass-through, OpenAI completion, OpenAI fine-tune, generic prompt/response,
then best-effort, first match wins.  The source's `lineNumber` parameter is
unused in its body and kept here for signature fidelity.  The source never
returns `null`, so the result is a plain `Json` record. -/
def normalizeToReviewItem (env : JsEnv) (data : Json) (_lineNumber : Nat) : Json :=
  if isReviewItemFormat data then passThroughReviewItem env data
  else if isOpenAIFormat data then convertOpenAIFormat env data
  else if isOpenAIFineTuneFormat data then convertOpenAIFineTuneFormat env data
  else if isGenericFormat data then convertGenericFormat env data
  else convertBestEffort env data

/-- The split token-usage attribute lists of the OTel mapping configuration
(src/lib/adapters/index.ts `OTelMappingConfig.tokenAttributes`).  In the
TypeScript type, whenever `tokenAttributes` appears it carries all three
lists, so a `Partial` override can only replace it wholesale. -/
structure OTelTokenAttributes where
  input : List String
  output : List String
  total : List String
deriving DecidableEq

/-- Configuration for semantic convention mappings
(src/lib/adapters/index.ts `OTelMappingConfig`). -/
structure OTelMappingConfig where
  promptAttributes : List String
  responseAttributes : List String
  modelAttributes : List String
  tokenAttributes : OTelTokenAttributes
  llmSpanNames : List String
  retrieverSpanNames : List String
deriving DecidableEq

/-- Default OpenTelemetry semantic convention mappings
(src/lib/adapters/index.ts `DEFAULT_OTEL_MAPPINGS`). -/
def DEFAULT_OTEL_MAPPINGS : OTelMappingConfig where
  promptAttributes := [
    "gen_ai.prompt",
    "gen_ai.prompt.0.content",
    "llm.prompts",
    "llm.prompts.0",
    "ai.prompt.text",
    "openai.prompt",
    "anthropic.prompt"]
  responseAttributes := [
    "gen_ai.completion",
    "gen_ai.completion.0.content",
    "llm.responses",
    "llm.responses.0",
    "ai.response.text",
    "openai.completion",
    "anthropic.completion"]
  modelAttributes := [
    "gen_ai.request.model",
    "gen_ai.response.model",
    "llm.model",
    "llm.model_name",
    "ai.model.id",
    "openai.model",
    "anthropic.model"]
  tokenAttributes := {
    input := [
      "gen_ai.usage.input_tokens",
      "gen_ai.usage.prompt_tokens",
      "llm.token_count.prompt",
      "ai.usage.input_tokens"]
    output := [
      "gen_ai.usage.output_tokens",
      "gen_ai.usage.completion_tokens",
      "llm.token_count.completion",
      "ai.usage.output_tokens"]
    total := [
      "gen_ai.usage.total_tokens",
      "llm.token_count.total",
      "ai.usage.total_tokens"] }
  llmSpanNames := [
    "llm.chat",
    "llm.completion",
    "llm",
    "ChatOpenAI",
    "ChatAnthropic",
    "OpenAI",
    "Anthropic"]
  retrieverSpanNames := [
    "retriever",
    "vectorstore",
    "Retriever",
    "VectorStoreRetriever"]

/-- A `Partial<OTelMappingConfig>` override: each top-level key may be absent
(`none`).  An absent key is one the caller's object literal does not mention. -/
structure PartialOTelMappingConfig where
  promptAttributes : Option (List String) := none
  responseAttributes : Option (List String) := none
  modelAttributes : Option (List String) := none
  tokenAttributes : Option OTelTokenAttributes := none
  llmSpanNames : Option (List String) := none
  retrieverSpanNames : Option (List String) := none

/-- The registry's `setOTelMappings` update
(src/lib/adapters/index.ts `AdapterRegistry.setOTelMappings`): the shallow
object spread `\x7b ...this.otelMappings, ...mappings \x7d`, which replaces
exactly the top-level keys present in the override. -/
def setOTelMappings (cur : OTelMappingConfig) (p : PartialOTelMappingConfig) :
    OTelMappingConfig where
  promptAttributes := p.promptAttributes.getD cur.promptAttributes
  responseAttributes := p.responseAttributes.getD cur.responseAttributes
  modelAttributes := p.modelAttributes.getD cur.modelAttributes
  tokenAttributes := p.tokenAttributes.getD cur.tokenAttributes
  llmSpanNames := p.llmSpanNames.getD cur.llmSpanNames
  retrieverSpanNames := p.retrieverSpanNames.getD cur.retrieverSpanNames

/-- Detector for one LangSmith run
(src/lib/adapters/langsmith.ts `isLangSmithRun`): not already-canonical, and
has an id field together with an inputs/outputs or run_type/name field. -/
def isLangSmithRun (data : Json) : Bool :=
  match data with
  | .obj _ | .arr _ =>
    if hasKey data "outputs" && isArrOpt (jGet data "outputs") then false
    else if (match jGet data "input" with
             | some v =>
               (match v with
                | .obj _ => true
                | .arr _ => true
                | _ => false)
               && hasKey v "prompt" && hasKey v "context_chunks"
             | none => false) then false
    else
      (hasKey data "run_id" || hasKey data "id")
      && ((hasKey data "inputs" || hasKey data "outputs")
          || (hasKey data "run_type" || hasKey data "name"))
  | _ => false

/-- Detector for a LangSmith export
(src/lib/adapters/langsmith.ts `isLangSmithExport`): a non-empty array of
runs, a container with a non-empty `runs` array, a container with a `run`,
or itself a run. -/
def isLangSmithExport (data : Json) : Bool :=
  match data with
  | .arr xs => !xs.isEmpty && xs.all isLangSmithRun
  | .obj _ =>
    if hasKey data "runs" && isArrOpt (jGet data "runs") then
      match jGet data "runs" with
      | some (.arr rs) => !rs.isEmpty && rs.all isLangSmithRun
      | _ => false
    else if (match jGet data "run" with
             | some r => isLangSmithRun r
             | none => false) then true
    else isLangSmithRun data
  | _ => false

/-- Span type of a LangSmith run from its `run_type`
(src/lib/adapters/langsmith.ts `getSpanType`).  A truthy non-string
`run_type` would throw in the source (`toLowerCase` on a non-string); it is
modelled as `unknown` and never exercised by a theorem below. -/
def lsGetSpanType (rt : Option Json) : SpanType :=
  match rt with
  | none => .unknown
  | some v =>
    if !jTruthy v then .unknown
    else match v with
      | .str s =>
        let t := jsToLower s
        if t == "llm" || t == "chat_model" then .llm
        else if t == "retriever" then .retriever
        else if t == "chain" then .chain
        else if t == "tool" then .tool
        else if t == "embedding" then .embedding
        else .unknown
      | _ => .unknown

/-- True when a run's `run_type` classifies it as an LLM call. -/
def isLLMRun (r : Json) : Bool :=
  match lsGetSpanType (jGet r "run_type") with
  | .llm => true
  | _ => false

/-- True when a run's `run_type` classifies it as a retriever. -/
def isRetrieverRun (r : Json) : Bool :=
  match lsGetSpanType (jGet r "run_type") with
  | .retriever => true
  | _ => false

/-- The `child_runs` list of a run.  A truthy non-array `child_runs` would
throw in the source (`flatMap` on a non-array); it is modelled as the empty
list and never exercised by a theorem below. -/
def childRunsOf (r : Json) : List Json :=
  match jGet r "child_runs" with
  | some (.arr xs) => xs
  | _ => []

mutual

/-- Computable size of a JSON value, used as recursion fuel by the tree
walkers below (the automatically derived `sizeOf` of a nested inductive has
no executable code). -/
def Json.jsize : Json → Nat
  | .null => 1
  | .bool _ => 1
  | .num _ => 1
  | .str _ => 1
  | .arr xs => 1 + Json.jsizeList xs
  | .obj fs => 1 + Json.jsizeFields fs

/-- Summed size of array elements. -/
def Json.jsizeList : List Json → Nat
  | [] => 0
  | x :: xs => Json.jsize x + Json.jsizeList xs + 1

/-- Summed size of object field values. -/
def Json.jsizeFields : List (String × Json) → Nat
  | [] => 0
  | (_, v) :: fs => Json.jsize v + Json.jsizeFields fs + 1

end

theorem Json.one_le_jsize (a : Json) : 1 ≤ Json.jsize a := by
  cases a <;> simp [Json.jsize]

theorem jsize_mem_list {xs : List Json} {x : Json} (h : x ∈ xs) :
    Json.jsize x ≤ Json.jsizeList xs := by
  induction xs with
  | nil => simp at h
  | cons a t ih =>
    rcases List.mem_cons.mp h with rfl | hm
    · simp [Json.jsizeList]
      omega
    · have := ih hm
      simp [Json.jsizeList]
      omega

theorem jsize_fieldsLookup {fields : List (String × Json)} {key : String} {v : Json}
    (h : fieldsLookup fields key = some v) : Json.jsize v ≤ Json.jsizeFields fields := by
  induction fields with
  | nil => simp [fieldsLookup] at h
  | cons p rest ih =>
    obtain ⟨k, w⟩ := p
    simp only [fieldsLookup] at h
    split at h
    · cases h
      simp [Json.jsizeFields]
      omega
    · have := ih h
      simp [Json.jsizeFields]
      omega

theorem jsize_jGet {j v : Json} {k : String} (h : jGet j k = some v) :
    Json.jsize v < Json.jsize j := by
  cases j with
  | obj fields =>
    simp only [jGet] at h
    have := jsize_fieldsLookup h
    simp only [Json.jsize]
    omega
  | null => simp [jGet] at h
  | bool b => simp [jGet] at h
  | num n => simp [jGet] at h
  | str s => simp [jGet] at h
  | arr xs => simp [jGet] at h

theorem jsize_childRunsOf {r c : Json} (h : c ∈ childRunsOf r) :
    Json.jsize c < Json.jsize r := by
  unfold childRunsOf at h
  split at h
  · next heq =>
    have h1 := jsize_jGet heq
    have h2 := jsize_mem_list h
    simp only [Json.jsize] at h1
    omega
  · simp at h

/-- Prompt and optional system prompt extracted from a run's `inputs`
(src/lib/adapters/langsmith.ts `extractPrompt`).  The chat-message branch
copies message `content` values unwrapped; every other branch coerces to a
string. -/
def lsExtractPrompt (inputs : Json) : Json × Option Json :=
  match jGet inputs "messages" with
  | some (.arr msgs) =>
    let systemMsg := msgs.find? (fun m => jGet m "role" == some (.str "system"))
    let userMsg := msgs.find? (fun m => jGet m "role" == some (.str "user"))
    let lastUserMsg := msgs.reverse.find? (fun m => jGet m "role" == some (.str "user"))
    (jFirstTruthy
      [lastUserMsg.bind (fun m => jGet m "content"),
       userMsg.bind (fun m => jGet m "content")] (.str ""),
     systemMsg.bind (fun m => jGet m "content"))
  | _ =>
    match jGet inputs "prompt" with
    | some (.str s) => (.str s, none)
    | some (.obj pf) =>
      (.str (jsToString (jFirstTruthy
        [jGet (.obj pf) "template", jGet (.obj pf) "text"]
        (.str (jsonStringify (.obj pf))))), none)
    | some (.arr pf) =>
      (.str (jsToString (jFirstTruthy
        [jGet (.arr pf) "template", jGet (.arr pf) "text"]
        (.str (jsonStringify (.arr pf))))), none)
    | _ =>
      match jGet inputs "input" with
      | some v => (.str (jsToString v), none)
      | none =>
        match jGet inputs "question" with
        | some v => (.str (jsToString v), none)
        | none =>
          match jGet inputs "query" with
          | some v => (.str (jsToString v), none)
          | none => (.str (jsonStringify inputs), none)

/-- Response text extracted from a run's `outputs`
(src/lib/adapters/langsmith.ts `extractResponse`).  Note the final fallback
stringifies the whole `outputs` object, so an empty `outputs` object yields
the non-empty string of its JSON form rather than an empty response. -/
def lsExtractResponse (outputs : Json) : Json :=
  let generationsBranch : Option Json :=
    match jGet outputs "generations" with
    | some (.arr gens) =>
      match gens.head? with
      | some (.arr g0) =>
        match g0.head? with
        | some v => some (jFirstTruthy
            [jGet v "text", (jGet v "message").bind (fun m => jGet m "content")] (.str ""))
        | none => none
      | _ => none
    | _ => none
  match generationsBranch with
  | some r => r
  | none =>
    match jGet outputs "message" with
    | some (.obj mf) =>
      .str (jsToString (jFirstTruthy [jGet (.obj mf) "content"] (.str "")))
    | some (.arr mf) =>
      .str (jsToString (jFirstTruthy [jGet (.arr mf) "content"] (.str "")))
    | _ =>
      match jGet outputs "output" with
      | some v => .str (jsToString v)
      | none =>
        match jGet outputs "text" with
        | some v => .str (jsToString v)
        | none =>
          match jGet outputs "answer" with
          | some v => .str (jsToString v)
          | none =>
            match jGet outputs "response" with
            | some v => .str (jsToString v)
            | none => .str (jsonStringify outputs)

/-- Context chunks from one retriever run's `outputs`
(src/lib/adapters/langsmith.ts `extractContextFromRetriever`). -/
def extractContextFromRetriever (env : JsEnv) (run : Json) : List Json :=
  if !(jOptTruthy (jGet run "outputs")) then []
  else
    let outs := (jGet run "outputs").getD .null
    let docs := jFirstTruthyOpt [jGet outs "documents", jGet outs "docs", jGet outs "results"]
    match docs with
    | some (.arr ds) => ds.enum.map (fun p =>
      let doc := p.2
      let metadata := jGet doc "metadata"
      .obj ([
        ("id", .str (jsToString (jFirstTruthy [jGet doc "id"] (.str (env.uuid (p.1 + 1)))))),
        ("text", .str (jsToString (jFirstTruthy
          [jGet doc "page_content", jGet doc "content", jGet doc "text"] (.str "")))),
        ("source", .str (jsToString (jFirstTruthy
          [metadata.bind (fun m => jGet m "source"), jGet doc "source"]
          (.str ("retrieved_" ++ toString p.1))))),
        ("score", .num (jsNum (jFirstTruthy
          [jGet doc "score", jGet doc "similarity", metadata.bind (fun m => jGet m "score")]
          (.num 0))))]
        ++ (match metadata with
            | some m => [("metadata", m)]
            | none => [])))
    | _ => []

/-- Fuelled form of the recursive leaf-LLM search; the fuel only bounds the
recursion depth, and `findLLMLeafSpans` supplies enough of it for the bound
never to bite (`findLLMLeafSpans_eq` below recovers the source's literal
recursion). -/
def findLLMLeafSpansF : Nat → Json → List Json
  | 0, _ => []
  | fuel + 1, r =>
    if isLLMRun r then
      if (childRunsOf r).isEmpty then [r]
      else
        let childLLM := (childRunsOf r).flatMap (findLLMLeafSpansF fuel)
        if childLLM.isEmpty then [r] else childLLM
    else (childRunsOf r).flatMap (findLLMLeafSpansF fuel)

/-- Recursive search for leaf LLM runs
(src/lib/adapters/langsmith.ts `findLLMLeafSpans`): an LLM run is kept when
no LLM run is found below it; a non-LLM run contributes its children's
results. -/
def findLLMLeafSpans (r : Json) : List Json := findLLMLeafSpansF (Json.jsize r) r

/-- Fuelled form of the retriever-run collection (see
`findLLMLeafSpansF`). -/
def findRelatedRetrieverSpansF : Nat → Json → List Json
  | 0, _ => []
  | fuel + 1, r =>
    (if isRetrieverRun r then [r] else [])
      ++ (childRunsOf r).flatMap (findRelatedRetrieverSpansF fuel)

/-- Recursive collection of every retriever run in a tree
(src/lib/adapters/langsmith.ts `findRelatedRetrieverSpans`; its
`targetSpanId` parameter is unused in the source and omitted here). -/
def findRelatedRetrieverSpans (r : Json) : List Json :=
  findRelatedRetrieverSpansF (Json.jsize r) r

/-- Newline-joined feedback comment lines. -/
def joinNl : List String → String
  | [] => ""
  | [s] => s
  | s :: rest => s ++ "\n" ++ joinNl rest

/-- Conversion of one LangSmith run to a canonical record
(src/lib/adapters/langsmith.ts `convertRunToReviewItem`). -/
def convertRunToReviewItem (env : JsEnv) (run : Json) (contextChunks : List Json) : Json :=
  let runId := jFirstTruthy [jGet run "run_id", jGet run "id"] (.str (env.uuid 0))
  let inputs := jFirstTruthy [jGet run "inputs"] (.obj [])
  let outputs := jFirstTruthy [jGet run "outputs"] (.obj [])
  let pr := lsExtractPrompt inputs
  let response := lsExtractResponse outputs
  let lat0 := jFirstTruthy [jGet run "latency"] (.num 0)
  let latencyMs : Json :=
    if jTruthy lat0 then lat0
    else match jGet run "start_time", jGet run "end_time" with
      | some s, some e =>
        if jTruthy s && jTruthy e then .num (env.dateMs e - env.dateMs s) else lat0
      | _, _ => lat0
  let modelId := jFirstTruthy
    [jGet run "model", jGet run "model_name",
     ((jGet run "extra").bind (fun e => jGet e "metadata")).bind (fun m => jGet m "model")]
    (.str "langsmith")
  let hfFields :=
    match jGet run "feedback" with
    | some (.arr fs) =>
      if fs.isEmpty then []
      else
        let corrections := fs.filter (fun f => jOptTruthy (jGet f "correction"))
        let correctedField := match corrections.head? with
          | some c =>
            match jGet c "correction" with
            | some v => [("corrected_text", v)]
            | none => []
          | none => []
        let commentsStr := joinNl
          ((fs.filter (fun f => jOptTruthy (jGet f "comment"))).map (fun f =>
            "[" ++ jsToString (jFirstTruthy [jGet f "key"] (.str "feedback")) ++ "] "
              ++ jsToString ((jGet f "comment").getD .null)))
        correctedField ++ (if commentsStr == "" then [] else [("comments", .str commentsStr)])
    | _ => []
  let tokenUsage := jFirstTruthy [jGet run "total_tokens"]
    (.num (jsNum (jFirstTruthy [jGet run "prompt_tokens"] (.num 0))
      + jsNum (jFirstTruthy [jGet run "completion_tokens"] (.num 0))))
  .obj ([
    ("id", runId),
    ("version", .num SCHEMA_VERSION),
    ("created_at", jFirstTruthy [jGet run "start_time"] (.str env.now)),
    ("updated_at", .str env.now),
    ("status", .str "pending")]
    ++ (match jGet run "session_name" with
        | some v => if jTruthy v then [("tags", .arr [v])] else []
        | none => [])
    ++ [
    ("trace_metadata", .obj ([
      ("trace_id", runId),
      ("span_id", runId)]
      ++ (match jGet run "parent_run_id" with
          | some v => [("parent_id", v)]
          | none => [])
      ++ [("span_type", .str (lsGetSpanType (jGet run "run_type")).toStr),
          ("source", .str "langsmith")]
      ++ (match jGet run "session_id" with
          | some v => [("session_id", v)]
          | none => [])
      ++ (match jGet run "error" with
          | some v => [("error", v)]
          | none => [])
      ++ [("latency_ms", latencyMs),
          ("original_data", .obj (
            (match jGet run "run_type" with
             | some v => [("run_type", v)]
             | none => [])
            ++ (match jGet run "name" with
                | some v => [("name", v)]
                | none => [])
            ++ (match jGet run "extra" with
                | some v => [("extra", v)]
                | none => [])))])),
    ("input", .obj ([("prompt", pr.1)]
      ++ (match pr.2 with
          | some sp => [("system_prompt", sp)]
          | none => [])
      ++ [("context_chunks", .arr contextChunks)])),
    ("outputs", if jTruthy response then
        .arr [.obj [
          ("model_id", modelId),
          ("text", response),
          ("token_usage", tokenUsage),
          ("latency_ms", latencyMs)]]
      else .arr []),
    ("human_feedback", .obj hfFields)])

/-- Resolution of the LangSmith `normalize` input union into a list of root
runs (the head of src/lib/adapters/langsmith.ts `normalize`). -/
def lsExtractRuns (data : Json) : List Json :=
  match data with
  | .arr xs => xs
  | _ =>
    if hasKey data "runs" && isArrOpt (jGet data "runs") then
      match jGet data "runs" with
      | some (.arr rs) => rs
      | _ => []
    else
      match jGet data "run" with
      | some r =>
        if jTruthy r then [r]
        else if isLangSmithRun data then [data] else []
      | none => if isLangSmithRun data then [data] else []

/-- Normalization of one root run: every leaf LLM run becomes a record
carrying the tree's retriever context; with no LLM run in the tree, the root
itself is converted (the per-run loop body of
src/lib/adapters/langsmith.ts `normalize`). -/
def lsNormalizePerRun (env : JsEnv) (run : Json) : List Json :=
  let retrieverSpans := findRelatedRetrieverSpans run
  let contextChunks := retrieverSpans.flatMap (extractContextFromRetriever env)
  let llmSpans := findLLMLeafSpans run
  if llmSpans.isEmpty then [convertRunToReviewItem env run contextChunks]
  else llmSpans.map (fun s => convertRunToReviewItem env s contextChunks)

/-- The LangSmith adapter's `normalize`, as the list of records it produces.
The source returns `items.length === 1 ? items[0] : items`, and its only
caller immediately re-wraps a single record into a one-element array
(`Array.isArray(result) ? result : [result]`); since a record object is never
an array, modelling `normalize` as the record list is extensionally exact at
every call site. -/
def lsNormalizeList (env : JsEnv) (data : Json) : List Json :=
  (lsExtractRuns data).flatMap (lsNormalizePerRun env)

/-- The JavaScript `typeof x === 'object'` test on parsed-JSON values
(arrays and `null` included). -/
def isTypeofObject : Json → Bool
  | .obj _ => true
  | .arr _ => true
  | .null => true
  | _ => false

/-- The key under which a kvlist entry stores its decoded value
(`obj[attr.key]`, a missing key coercing to the string `"undefined"`). -/
def kvAttrKey (a : Json) : String :=
  match jGet a "key" with
  | some k => jsToString k
  | none => "undefined"

mutual

/-- Decoding of one OTLP attribute value into a plain value
(src/lib/adapters/otel.ts `getAttributeValue`): the first present wire field
among `stringValue`/`intValue`/`doubleValue`/`boolValue` wins (present
`null`s included, as in the source's `!== undefined` tests), then a truthy
`arrayValue`/`kvlistValue` decodes recursively.  `none` models the
`undefined` result; an element decoding to `undefined` inside a decoded
array/kvlist is modelled as `null` (no claim inspects such a value). -/
def getAttributeValue (v : Json) : Option Json :=
  match jGet v "stringValue" with
  | some sv => some sv
  | none =>
  match jGet v "intValue" with
  | some iv => some (.num (jsNum iv))
  | none =>
  match jGet v "doubleValue" with
  | some dv => some dv
  | none =>
  match jGet v "boolValue" with
  | some bv => some bv
  | none =>
  match h1 : jGet v "arrayValue" with
  | some av =>
    if jTruthy av then
      some (.arr (match h2 : jGet av "values" with
        | some (.arr xs) => xs.attach.map (fun x => (getAttributeValue x.1).getD .null)
        | _ => []))
    else getAttributeValueKv v
  | none => getAttributeValueKv v
termination_by (sizeOf v, 1)
decreasing_by
  · apply Prod.Lex.left
    have hav := sizeOf_jGet h1
    have hvs := sizeOf_jGet h2
    have hx := List.sizeOf_lt_of_mem x.2
    simp only [Json.arr.sizeOf_spec] at hvs
    omega
  · apply Prod.Lex.right'
    · omega
    · omega
  · apply Prod.Lex.right'
    · omega
    · omega

/-- The `kvlistValue` tail of `getAttributeValue`. -/
def getAttributeValueKv (v : Json) : Option Json :=
  match h1 : jGet v "kvlistValue" with
  | some kv =>
    if jTruthy kv then
      some (.obj (match h2 : jGet kv "values" with
        | some (.arr xs) => xs.attach.map (fun a =>
            (kvAttrKey a.1,
             match h3 : jGet a.1 "value" with
             | some w => (getAttributeValue w).getD .null
             | none => .null))
        | _ => []))
    else none
  | none => none
termination_by (sizeOf v, 0)
decreasing_by
  apply Prod.Lex.left
  have hkv := sizeOf_jGet h1
  have hvs := sizeOf_jGet h2
  have ha := List.sizeOf_lt_of_mem a.2
  have hw := sizeOf_jGet h3
  simp only [Json.arr.sizeOf_spec] at hvs
  omega

end

/-- The flattened-attributes phase of `getAttribute`: for each key, first the
span's own property, then (when `attributes` is a non-array object) the
key inside `attributes`. -/
def getAttrFlattened (span : Json) (keys : List String) : Option Json :=
  keys.findSome? (fun k =>
    match jGet span k with
    | some v => some v
    | none =>
      match jGet span "attributes" with
      | some (.obj fs) => fieldsLookup fs k
      | _ => none)

/-- Attribute resolution over a priority key list
(src/lib/adapters/otel.ts `getAttribute`): when `attributes` is an array, the
first key matching an entry returns that entry's decoded value (even when
the decoding is `undefined`); only when no key matches does the flattened
phase run. -/
def getAttribute (span : Json) (keys : List String) : Option Json :=
  match jGet span "attributes" with
  | some (.arr attrs) =>
    match keys.findSome? (fun k => attrs.find? (fun a => jGet a "key" == some (.str k))) with
    | some attr =>
      match jGet attr "value" with
      | some w => getAttributeValue w
      | none => none
    | none => getAttrFlattened span keys
  | _ => getAttrFlattened span keys

/-- All attributes of a span as a plain field list
(src/lib/adapters/otel.ts `getAttributesObject`). -/
def getAttributesObject (span : Json) : List (String × Json) :=
  match jGet span "attributes" with
  | some (.arr attrs) =>
    attrs.foldl (fun acc a =>
      match jGet a "value" with
      | some w =>
        match getAttributeValue w with
        | some dv => objSet acc (kvAttrKey a) dv
        | none => acc
      | none => acc) []
  | some (.obj fs) => fs
  | _ => []

/-- Detector for an OpenTelemetry export
(src/lib/adapters/otel.ts `isOTelExport`): a `resourceSpans` array, a
non-empty `spans` array whose first element carries `traceId` and `spanId`,
or itself a bare span. -/
def isOTelExport (data : Json) : Bool :=
  match data with
  | .obj _ =>
    if hasKey data "resourceSpans" && isArrOpt (jGet data "resourceSpans") then true
    else if hasKey data "spans" && isArrOpt (jGet data "spans") then
      match jGet data "spans" with
      | some (.arr ss) =>
        !ss.isEmpty
        && (match ss.head? with
            | some s0 => hasKey s0 "traceId" && hasKey s0 "spanId"
            | none => false)
      | _ => false
    else hasKey data "traceId" && hasKey data "spanId" && hasKey data "name"
  | _ => false

/-- The lower-cased span name (`span.name.toLowerCase()`; a missing or
non-string name would throw in the source and is modelled as `""`). -/
def spanNameLower (span : Json) : String :=
  match jGet span "name" with
  | some (.str s) => jsToLower s
  | _ => ""

/-- LLM-span classification (src/lib/adapters/otel.ts `isLLMSpan`): a
configured LLM name substring in the span name, or any configured
prompt/response attribute present. -/
def isLLMSpan (span : Json) (m : OTelMappingConfig) : Bool :=
  m.llmSpanNames.any (fun n => strIncludes (spanNameLower span) (jsToLower n))
  || m.promptAttributes.any (fun k => (getAttribute span [k]).isSome)
  || m.responseAttributes.any (fun k => (getAttribute span [k]).isSome)

/-- Retriever-span classification (src/lib/adapters/otel.ts
`isRetrieverSpan`). -/
def isRetrieverSpan (span : Json) (m : OTelMappingConfig) : Bool :=
  m.retrieverSpanNames.any (fun n => strIncludes (spanNameLower span) (jsToLower n))

/-- Span classification (src/lib/adapters/otel.ts `getSpanType`). -/
def otelGetSpanType (span : Json) (m : OTelMappingConfig) : SpanType :=
  if isLLMSpan span m then .llm
  else if isRetrieverSpan span m then .retriever
  else
    let name := spanNameLower span
    if strIncludes name "tool" || strIncludes name "function" then .tool
    else if strIncludes name "chain" then .chain
    else if strIncludes name "embed" then .embedding
    else .unknown

/-- The prompt value resolved from a span's attributes: the first configured
prompt attribute present, else the input-like fallback keys (the head of
src/lib/adapters/otel.ts `extractPrompt`). -/
def otelResolvedPrompt (span : Json) (m : OTelMappingConfig) : Option Json :=
  match m.promptAttributes.findSome? (fun k => getAttribute span [k]) with
  | some p => some p
  | none => getAttribute span ["input", "query", "question", "user_input"]

/-- Prompt and optional system prompt from a span's attributes
(src/lib/adapters/otel.ts `extractPrompt`).  A resolved chat-message array
copies the user message's `content` unwrapped; other shapes coerce. -/
def otelExtractPrompt (span : Json) (m : OTelMappingConfig) : Json × Option Json :=
  match otelResolvedPrompt span m with
  | some (.arr msgs) =>
    let systemMsg := msgs.find? (fun mg =>
      isTypeofObject mg && jGet mg "role" == some (.str "system"))
    let userMsg := msgs.find? (fun mg =>
      isTypeofObject mg && jGet mg "role" == some (.str "user"))
    let fallback : Json :=
      match msgs.head? with
      | some (.str s) => .str s
      | _ => .str (jsonStringify (.arr msgs))
    (match userMsg with
     | some u => jFirstTruthy [jGet u "content"] fallback
     | none => fallback,
     systemMsg.bind (fun mg => jGet mg "content"))
  | some p =>
    if isTypeofObject p && !(p == .null) && hasKey p "messages" then
      match jGet p "messages" with
      | some (.arr ms) =>
        let systemMsg := ms.find? (fun mg => jGet mg "role" == some (.str "system"))
        let userMsg := ms.find? (fun mg => jGet mg "role" == some (.str "user"))
        (jFirstTruthy [userMsg.bind (fun mg => jGet mg "content")] (.str ""),
         systemMsg.bind (fun mg => jGet mg "content"))
      | _ => (.str "", none)
    else (.str (jsToString (jFirstTruthy [some p] (.str ""))), none)
  | none => (.str "", none)

/-- Response text from a span's attributes
(src/lib/adapters/otel.ts `extractResponse`).  As in the source, an empty
resolved array falls through to the object branch and stringifies to
`"[]"`. -/
def otelExtractResponse (span : Json) (m : OTelMappingConfig) : Json :=
  let respOpt :=
    match m.responseAttributes.findSome? (fun k => getAttribute span [k]) with
    | some r => some r
    | none => getAttribute span ["output", "answer", "response", "completion"]
  match respOpt with
  | some (.arr (c :: _)) =>
    (match c with
     | .str s => .str s
     | first => jFirstTruthy
         [jGet first "content", jGet first "text", (jGet first "message").bind (fun g => jGet g "content")]
         (.str (jsonStringify first)))
  | some v =>
    if isTypeofObject v && !(v == .null) then
      jFirstTruthy
        [jGet v "content", jGet v "text", (jGet v "message").bind (fun g => jGet g "content")]
        (.str (jsonStringify v))
    else .str (jsToString (jFirstTruthy [some v] (.str "")))
  | none => .str ""

/-- Model identifier from a span's attributes
(src/lib/adapters/otel.ts `extractModel`). -/
def otelExtractModel (span : Json) (m : OTelMappingConfig) : String :=
  match m.modelAttributes.findSome? (fun k => getAttribute span [k]) with
  | some v => jsToString v
  | none => "unknown"

/-- Token usage from a span's attributes
(src/lib/adapters/otel.ts `extractTokenUsage`). -/
def otelExtractTokenUsage (span : Json) (m : OTelMappingConfig) : Int :=
  match m.tokenAttributes.total.findSome? (fun k => getAttribute span [k]) with
  | some t => jsNum t
  | none =>
    (match m.tokenAttributes.input.findSome? (fun k => getAttribute span [k]) with
     | some i => jsNum i
     | none => 0)
    + (match m.tokenAttributes.output.findSome? (fun k => getAttribute span [k]) with
       | some o => jsNum o
       | none => 0)

/-- Context chunks from every retriever span of the list
(src/lib/adapters/otel.ts `extractContextFromRetrievers`). -/
def otelExtractContext (env : JsEnv) (m : OTelMappingConfig) (spans : List Json) : List Json :=
  spans.flatMap (fun span =>
    if !isRetrieverSpan span m then []
    else
      match getAttribute span ["documents", "retriever.documents", "docs", "results"] with
      | some (.arr ds) => ds.enum.map (fun p =>
        match p.2 with
        | .str s =>
          .obj ([
            ("id", .str (env.uuid (p.1 + 1))),
            ("text", .str s)]
            ++ (match jGet span "name" with
                | some n => [("source", n)]
                | none => [])
            ++ [("score", .num 0)])
        | doc =>
          let metadata := jGet doc "metadata"
          .obj ([
            ("id", .str (jsToString (jFirstTruthy [jGet doc "id"] (.str (env.uuid (p.1 + 1)))))),
            ("text", .str (jsToString (jFirstTruthy
              [jGet doc "page_content", jGet doc "content", jGet doc "text"] (.str "")))),
            ("source", .str (match jFirstTruthyOpt
                [jGet doc "source", metadata.bind (fun g => jGet g "source"), jGet span "name"] with
              | some v => jsToString v
              | none => "undefined")),
            ("score", .num (jsNum (jFirstTruthy
              [jGet doc "score", jGet doc "similarity"] (.num 0))))]
            ++ (match metadata with
                | some g => [("metadata", g)]
                | none => [])))
      | _ => [])

/-- Parsing of a nanosecond timestamp as the source's `BigInt(nano)` does:
numbers and digit strings succeed, `none` models a thrown conversion.  (The
degenerate `BigInt("")` and `BigInt([])` successes are modelled as `0` and
failure respectively; neither is exercised by a theorem.) -/
def parseNanoOpt : Option Json → Option Int
  | some (.num n) => some n
  | some (.str s) =>
    if s == "" then some 0
    else if s.data.all Char.isDigit then some ((String.toNat? s).getD 0 : Int)
    else
      match s.data with
      | '-' :: rest =>
        if !rest.isEmpty && rest.all Char.isDigit then
          some (-(((String.mk rest).toNat?).getD 0 : Int))
        else none
      | _ => none
  | some (.bool b) => some (cond b 1 0)
  | _ => none

/-- Latency from span timestamps
(src/lib/adapters/otel.ts `calculateLatency`, with `nanoToMs` inlined):
millisecond difference, `0` when either conversion throws. -/
def calculateLatency (span : Json) : Int :=
  match parseNanoOpt (jGet span "startTimeUnixNano"), parseNanoOpt (jGet span "endTimeUnixNano") with
  | some a, some b => Int.tdiv b 1000000 - Int.tdiv a 1000000
  | _, _ => 0

/-- Creation timestamp (`nanoToIso` under the source's `try/catch`). -/
def otelCreatedAt (env : JsEnv) (span : Json) : String :=
  match parseNanoOpt (jGet span "startTimeUnixNano") with
  | some n => env.msToIso (Int.tdiv n 1000000)
  | none => env.now

/-- Conversion of one OTel span to a canonical record
(src/lib/adapters/otel.ts `convertSpanToReviewItem`). -/
def convertSpanToReviewItem (env : JsEnv) (m : OTelMappingConfig) (contextChunks : List Json)
    (span : Json) : Json :=
  let pr := otelExtractPrompt span m
  let response := otelExtractResponse span m
  let model := otelExtractModel span m
  let tokenUsage := otelExtractTokenUsage span m
  let latencyMs := calculateLatency span
  let errorOpt :=
    if (jGet span "status").bind (fun st => jGet st "code") == some (.num 2) then
      (jGet span "status").bind (fun st => jGet st "message")
    else none
  .obj [
    ("id", jFirstTruthy [jGet span "spanId"] (.str (env.uuid 0))),
    ("version", .num SCHEMA_VERSION),
    ("created_at", .str (otelCreatedAt env span)),
    ("updated_at", .str env.now),
    ("status", .str "pending"),
    ("trace_metadata", .obj (
      (match jGet span "traceId" with
       | some v => [("trace_id", v)]
       | none => [])
      ++ (match jGet span "spanId" with
          | some v => [("span_id", v)]
          | none => [])
      ++ (match jGet span "parentSpanId" with
          | some v => [("parent_id", v)]
          | none => [])
      ++ [("span_type", .str (otelGetSpanType span m).toStr),
          ("source", .str "otel")]
      ++ (match errorOpt with
          | some v => [("error", v)]
          | none => [])
      ++ [("latency_ms", .num latencyMs),
          ("original_data", .obj (getAttributesObject span))])),
    ("input", .obj ([("prompt", pr.1)]
      ++ (match pr.2 with
          | some sp => [("system_prompt", sp)]
          | none => [])
      ++ [("context_chunks", .arr contextChunks)])),
    ("outputs", if jTruthy response then
        .arr [.obj [
          ("model_id", .str model),
          ("text", response),
          ("token_usage", .num tokenUsage),
          ("latency_ms", .num latencyMs)]]
      else .arr []),
    ("human_feedback", .obj [])]

/-- Flattening of an OTel export into one span list
(src/lib/adapters/otel.ts `extractSpans`): nested
`resourceSpans → scopeSpans → spans`, then a flat `spans` array, then the
value itself when it is a bare span. -/
def extractSpans (data : Json) : List Json :=
  (match jGet data "resourceSpans" with
   | some (.arr rss) => rss.flatMap (fun rs =>
       match jGet rs "scopeSpans" with
       | some (.arr sss) => sss.flatMap (fun ss =>
           match jGet ss "spans" with
           | some (.arr sp) => sp
           | _ => [])
       | _ => [])
   | _ => [])
  ++ (match jGet data "spans" with
      | some (.arr sp) => sp
      | _ => [])
  ++ (if hasKey data "spanId" && hasKey data "traceId" && hasKey data "name" then [data] else [])

/-- Leaf LLM spans of a flat span list
(src/lib/adapters/otel.ts `findLeafLLMSpans`): LLM spans none of whose
children (spans whose truthy `parentSpanId` equals this span's `spanId`) have
a `spanId` among the LLM spans' ids. -/
def findLeafLLMSpans (spans : List Json) (m : OTelMappingConfig) : List Json :=
  let llmSpans := spans.filter (fun s => isLLMSpan s m)
  let llmIds := llmSpans.map (fun s => jGet s "spanId")
  llmSpans.filter (fun s =>
    let children :=
      match jGet s "spanId" with
      | some sid => spans.filter (fun c =>
          match jGet c "parentSpanId" with
          | some p => jTruthy p && p == sid
          | none => false)
      | none => []
    !(children.any (fun c => llmIds.contains (jGet c "spanId"))))

/-- The OTel adapter's `normalize` on an already-extracted span list
(src/lib/adapters/otel.ts `normalize` after span extraction): leaf LLM spans
if any, else spans carrying prompt/response attributes, else root spans
(spans with no truthy `parentSpanId`). -/
def otelNormalizeSpans (env : JsEnv) (m : OTelMappingConfig) (spans : List Json) : List Json :=
  if spans.isEmpty then []
  else
    let contextChunks := otelExtractContext env m spans
    let leafLLMSpans := findLeafLLMSpans spans m
    if !leafLLMSpans.isEmpty then
      leafLLMSpans.map (convertSpanToReviewItem env m contextChunks)
    else
      let llmLike := spans.filter (fun s =>
        m.promptAttributes.any (fun k => (getAttribute s [k]).isSome)
        || m.responseAttributes.any (fun k => (getAttribute s [k]).isSome))
      if !llmLike.isEmpty then
        llmLike.map (convertSpanToReviewItem env m contextChunks)
      else
        (spans.filter (fun s => !(jOptTruthy (jGet s "parentSpanId")))).map
          (convertSpanToReviewItem env m contextChunks)

/-- The OTel adapter's `normalize`, as the list of records it produces (see
`lsNormalizeList` for why the single-record unwrapping is dropped). -/
def otelNormalizeList (env : JsEnv) (m : OTelMappingConfig) (data : Json) : List Json :=
  otelNormalizeSpans env m
    (match data with
     | .arr xs => xs
     | _ => extractSpans data)

/-- One per-line / per-item import error (`ImportResult.errors` entries). -/
structure ImportError where
  line : Nat
  message : String
deriving DecidableEq

/-- The import result (src/types/review.ts `ImportResult`). -/
structure ImportResult where
  success : Bool
  itemsImported : Nat
  items : List Json
  errors : List ImportError
deriving DecidableEq

/-- The registered trace adapters, in registration order (src/lib/utils.ts
registers `langSmithAdapter` then `otelAdapter`, and the registry's `Map`
iterates in insertion order). -/
inductive AdapterKind where
  | langsmith
  | otel
deriving DecidableEq

/-- Registry detection (src/lib/adapters/index.ts
`AdapterRegistry.detectAdapter`): the first registered adapter whose
`detect` accepts the value. -/
def detectAdapter (data : Json) : Option AdapterKind :=
  if isLangSmithExport data then some .langsmith
  else if isOTelExport data then some .otel
  else none

/-- Dispatch of `adapter.normalize` (already re-wrapped into a record list;
see `lsNormalizeList`).  The OTel adapter reads the registry's current
mapping configuration, threaded here as `m`. -/
def adapterNormalize (k : AdapterKind) (env : JsEnv) (m : OTelMappingConfig) (data : Json) :
    List Json :=
  match k with
  | .langsmith => lsNormalizeList env data
  | .otel => otelNormalizeList env m data

/-- The aggregation `success: errors.length === 0 || items.length > 0` used by
both final return sites of the orchestrator. -/
def mkImportResult (items : List Json) (errors : List ImportError) : ImportResult where
  success := errors.isEmpty || !items.isEmpty
  itemsImported := items.length
  items := items
  errors := errors

/-- Whole-document import (src/lib/utils.ts `parseJsonData`): a detected
trace adapter wins outright (reported as success with no errors, whatever it
produced); otherwise arrays are processed element-wise and single objects
once, through the generic chain.  The adapter-exception `catch` branches are
not modelled (the embedded adapters are total), so the array branch's inner
LangSmith retry — reachable in the source only after such an exception — is
retained but provably dead. -/
def parseJsonData (env : JsEnv) (m : OTelMappingConfig) (data : Json) : ImportResult :=
  match detectAdapter data with
  | some k =>
    let normalized := adapterNormalize k env m data
    { success := true
      itemsImported := normalized.length
      items := normalized
      errors := [] }
  | none =>
    match data with
    | .arr xs =>
      if isLangSmithExport data then
        let normalized := lsNormalizeList env data
        { success := true
          itemsImported := normalized.length
          items := normalized
          errors := [] }
      else
        let items := xs.enum.flatMap (fun p =>
          let item := normalizeToReviewItem env p.2 (p.1 + 1)
          if jTruthy item then [item] else [])
        mkImportResult items []
    | .obj _ =>
      let item := normalizeToReviewItem env data 1
      mkImportResult (if jTruthy item then [item] else []) []
    | _ => mkImportResult [] []

/-- Line-delimited import (src/lib/utils.ts `parseJsonlLines`), with the
platform `JSON.parse` passed as the `parse` function (`none` models a thrown
`SyntaxError`, whose engine-specific message is modelled by the fixed string
`"Invalid JSON"` — no claim depends on the message text of a parse error).
Lines are the newline-split fragments with non-blank trimmed content; a
failed line contributes one error keyed by its 1-based index; a parsed line
goes through adapter detection and otherwise the generic chain. -/
def parseJsonlLines (env : JsEnv) (m : OTelMappingConfig) (parse : String → Option Json)
    (text : String) : ImportResult :=
  let lines := (jsSplitOnChar '\n' text).filter (fun l => !(jsTrim l == ""))
  let step := lines.enum.foldl (fun acc p =>
    match parse p.2 with
    | none => (acc.1, acc.2 ++ [⟨p.1 + 1, "Invalid JSON"⟩])
    | some parsed =>
      match detectAdapter parsed with
      | some k => (acc.1 ++ adapterNormalize k env m parsed, acc.2)
      | none =>
        let item := normalizeToReviewItem env parsed (p.1 + 1)
        if jTruthy item then (acc.1 ++ [item], acc.2) else acc)
    (([] : List Json), ([] : List ImportError))
  mkImportResult step.1 step.2

/-- The 50 MiB upload ceiling (src/lib/utils.ts `MAX_FILE_SIZE`). -/
def MAX_FILE_SIZE : Nat := 50 * 1024 * 1024

/-- The size-gate error message, `File size exceeds ${MAX_FILE_SIZE / 1024 /
1024}MB limit`. -/
def sizeLimitMessage : String := "File size exceeds 50MB limit"

/-- The post-size-gate body of `parseJsonlFile`: a payload whose trimmed text
starts with a brace or bracket is first tried as one JSON document
(dispatching to `parseJsonData`), and otherwise — or when that parse throws —
is processed line by line. -/
def importDispatch (env : JsEnv) (m : OTelMappingConfig) (parse : String → Option Json)
    (text : String) : ImportResult :=
  if strStartsWith (jsTrim text) "\x7b" || strStartsWith (jsTrim text) "[" then
    match parse (jsTrim text) with
    | some parsed => parseJsonData env m parsed
    | none => parseJsonlLines env m parse text
  else parseJsonlLines env m parse text

/-- File import entry point (src/lib/utils.ts `parseJsonlFile`): the size
gate, then `importDispatch`.  `size` models `file.size` (bytes) and `text`
the file content. -/
def parseJsonlFile (env : JsEnv) (m : OTelMappingConfig) (parse : String → Option Json)
    (size : Nat) (text : String) : ImportResult :=
  if size > MAX_FILE_SIZE then
    { success := false
      itemsImported := 0
      items := []
      errors := [⟨0, sizeLimitMessage⟩] }
  else importDispatch env m parse text

/-! Specification-side constructs.  Nothing below changes the embedding; these
definitions name the tree vocabulary of the claims (the nodes of a run tree,
LLM-descendant possession) and the well-typedness side conditions under which
chat-message `content` copying yields strings. -/

/-- Fuelled preorder enumeration of a run tree's nodes. -/
def runNodesF : Nat → Json → List Json
  | 0, _ => []
  | fuel + 1, r => r :: (childRunsOf r).flatMap (runNodesF fuel)

/-- All nodes of a run tree (the run itself and, recursively, its
`child_runs`), in preorder. -/
def runNodes (r : Json) : List Json := runNodesF (Json.jsize r) r

/-- All strict descendants of a run: the nodes of its children's subtrees. -/
def strictDescendants (r : Json) : List Json := (childRunsOf r).flatMap runNodes

/-- True when some strict descendant of the run is LLM-classified. -/
def hasLLMDescendant (r : Json) : Bool := (strictDescendants r).any isLLMRun

/-- The `input.prompt` field of a record. -/
def recPrompt (r : Json) : Option Json :=
  (jGet r "input").bind (fun i => jGet i "prompt")

/-- A value that is either falsy or a string — the condition under which the
uncoerced `x || ''` idiom yields a string. -/
def strOrFalsy (v : Json) : Bool :=
  !jTruthy v
  || (match v with
      | .str _ => true
      | _ => false)

/-- A chat message whose `content`, if present, is falsy or a string. -/
def contentOk (mg : Json) : Bool :=
  match jGet mg "content" with
  | some v => strOrFalsy v
  | none => true

/-- Well-typedness of the fine-tune converter's user messages: every
user-role message has falsy-or-string `content`. -/
def fineTuneUserContentOk (data : Json) : Bool :=
  match jGet data "messages" with
  | some (.arr msgs) =>
    msgs.all (fun mg => !(jGet mg "role" == some (.str "user")) || contentOk mg)
  | _ => true

/-- Well-typedness of a LangSmith run's chat inputs: every user-role message
has falsy-or-string `content` (vacuous when `inputs.messages` is not an
array, where extraction coerces). -/
def lsPromptOk (inputs : Json) : Bool :=
  match jGet inputs "messages" with
  | some (.arr msgs) =>
    msgs.all (fun mg => !(jGet mg "role" == some (.str "user")) || contentOk mg)
  | _ => true

/-- Well-typedness of an OTel span's resolved prompt: when it is a message
array or a messages-carrying object, every user-role message has
falsy-or-string `content`. -/
def otelPromptOk (span : Json) (m : OTelMappingConfig) : Bool :=
  match otelResolvedPrompt span m with
  | some (.arr msgs) =>
    msgs.all (fun mg =>
      !(isTypeofObject mg && jGet mg "role" == some (.str "user")) || contentOk mg)
  | some p =>
    if isTypeofObject p && !(p == .null) && hasKey p "messages" then
      match jGet p "messages" with
      | some (.arr ms) =>
        ms.all (fun mg => !(jGet mg "role" == some (.str "user")) || contentOk mg)
      | _ => true
    else true
  | none => true

/-! Concrete inputs used by the witnesses and counterexamples below. -/

/-- A concrete environment instance; no theorem depends on its values. -/
def witEnv : JsEnv where
  now := "2024-01-01T00:00:00.000Z"
  uuid := fun _ => "00000000-0000-4000-8000-000000000000"
  dateMs := fun _ => 0
  msToIso := fun _ => "1970-01-01T00:00:00.000Z"

/-- A parse function that fails on every line (models `JSON.parse` on inputs
where it always throws). -/
def parseNone : String → Option Json := fun _ => none

/-- A second concrete environment (a later wall clock and different uuid
draws), used to re-normalize in the idempotence witness. -/
def witEnv2 : JsEnv where
  now := "2024-02-02T12:30:00.000Z"
  uuid := fun _ => "11111111-1111-4111-8111-111111111111"
  dateMs := fun _ => 7
  msToIso := fun _ => "1970-01-01T00:00:00.007Z"

/-- An already-canonical record carrying a source `status`. -/
def cxApprovedRecord : Json := .obj [
  ("input", .obj [("prompt", .str "a prompt")]),
  ("outputs", .arr []),
  ("status", .str "approved")]

/-- An already-canonical record whose `input.prompt` is JSON `null`. -/
def cxNullPromptRecord : Json := .obj [
  ("input", .obj [("prompt", .null)]),
  ("outputs", .arr [])]

/-- A generic prompt/response object whose response field is empty. -/
def cxEmptyResponse : Json := .obj [
  ("prompt", .str "a question"),
  ("response", .str "")]

/-- An OTLP document with an empty `resourceSpans` list. -/
def cxEmptyOtelExport : Json := .obj [("resourceSpans", .arr [])]

/-- The serialized form of `cxEmptyOtelExport`. -/
def cxEmptyOtelText : String := "\x7b\"resourceSpans\":[]\x7d"

/-- A parse function defined exactly on `cxEmptyOtelText`. -/
def cxEmptyOtelParse : String → Option Json := fun s =>
  if s = cxEmptyOtelText then some cxEmptyOtelExport else none

/-- An OTel span that is not LLM-classified and carries a `parentSpanId`. -/
def cxOrphanSpan : Json := .obj [
  ("traceId", .str "t"),
  ("spanId", .str "s"),
  ("parentSpanId", .str "p"),
  ("name", .str "db.query")]

/-- The inner (leaf) LLM run of the nested-LLM witness tree. -/
def witInnerRun : Json := .obj [
  ("run_id", .str "inner"),
  ("run_type", .str "llm"),
  ("inputs", .obj [("prompt", .str "question")]),
  ("outputs", .obj [("text", .str "answer")])]

/-- The outer LLM run wrapping `witInnerRun`. -/
def witOuterRun : Json := .obj [
  ("run_id", .str "outer"),
  ("run_type", .str "llm"),
  ("child_runs", .arr [witInnerRun])]

/-- A small OTel mapping configuration for the witnesses. -/
def witMappings : OTelMappingConfig where
  promptAttributes := ["p"]
  responseAttributes := ["r"]
  modelAttributes := []
  tokenAttributes := { input := [], output := [], total := [] }
  llmSpanNames := ["llm"]
  retrieverSpanNames := ["retriever"]

/-- The outer LLM span of the nested-LLM witness span list. -/
def witOuterSpan : Json := .obj [
  ("traceId", .str "t"),
  ("spanId", .str "o"),
  ("name", .str "llm.chat")]

/-- The inner (child) LLM span of the nested-LLM witness span list. -/
def witInnerSpan : Json := .obj [
  ("traceId", .str "t"),
  ("spanId", .str "i"),
  ("parentSpanId", .str "o"),
  ("name", .str "llm.completion")]

/-- A non-LLM root run for the no-LLM fallback witness. -/
def witToolRun : Json := .obj [
  ("run_id", .str "tool1"),
  ("run_type", .str "tool"),
  ("inputs", .obj [("input", .str "arg")]),
  ("outputs", .obj [("output", .str "result")])]

/-- A non-LLM root span (no `parentSpanId`) for the no-LLM fallback witness. -/
def witRootSpan : Json := .obj [
  ("traceId", .str "t"),
  ("spanId", .str "root"),
  ("name", .str "db.query")]

/-- First valid generic-format line of the error-isolation witness. -/
def witLine1 : Json := .obj [("prompt", .str "p1"), ("response", .str "r1")]

/-- Third valid generic-format line of the error-isolation witness. -/
def witLine3 : Json := .obj [("prompt", .str "p3"), ("response", .str "r3")]

/-- Parse function for the error-isolation witness: succeeds on lines "A" and
"C", fails on "B". -/
def witParse : String → Option Json := fun s =>
  if s = "A" then some witLine1
  else if s = "C" then some witLine3
  else none

/-- An already-canonical record for the pass-through idempotence witness. -/
def witCanonical : Json := .obj [
  ("id", .str "rec-1"),
  ("created_at", .str "2023-06-01T00:00:00.000Z"),
  ("status", .str "approved"),
  ("trace_metadata", .obj [("trace_id", .str "tr-1"), ("source", .str "manual")]),
  ("input", .obj [("prompt", .str "stored prompt"), ("context_chunks", .arr [])]),
  ("outputs", .arr [.obj [("model_id", .str "m"), ("text", .str "stored answer"),
    ("token_usage", .num 3), ("latency_ms", .num 5)]]),
  ("human_feedback", .obj [])]

/-- A partial mapping override that only replaces `llmSpanNames`. -/
def witPartial : PartialOTelMappingConfig := { llmSpanNames := some ["my.llm"] }

/-- A fine-tune line whose only user message has string content. -/
def witFineTune : Json := .obj [
  ("messages", .arr [
    .obj [("role", .str "system"), ("content", .str "be nice")],
    .obj [("role", .str "user"), ("content", .str "hi there")]])]

/-- A LangSmith run with chat-message inputs of string content. -/
def witChatRun : Json := .obj [
  ("run_id", .str "chat1"),
  ("run_type", .str "llm"),
  ("inputs", .obj [("messages", .arr [
    .obj [("role", .str "user"), ("content", .str "chat question")]])]),
  ("outputs", .obj [("text", .str "chat answer")])]

/-- An OTel span whose flattened prompt attribute holds a message array. -/
def witChatSpan : Json := .obj [
  ("traceId", .str "t"),
  ("spanId", .str "c"),
  ("name", .str "llm.chat"),
  ("p", .arr [.obj [("role", .str "user"), ("content", .str "span question")]])]

/-- A LangSmith run with no output fields at all. -/
def cxBareRun : Json := .obj [
  ("run_id", .str "r1"),
  ("run_type", .str "llm")]

/-! Theorems.  First the unfolding equations of the fuelled tree walkers
(recovering the source's literal recursions), then characterizations of the
leaf-LLM search, then the claim theorems. -/

theorem findLLMLeafSpansF_congr : ∀ (n : Nat) (r : Json) (f1 f2 : Nat),
    Json.jsize r ≤ n → Json.jsize r ≤ f1 → Json.jsize r ≤ f2 →
    findLLMLeafSpansF f1 r = findLLMLeafSpansF f2 r := by
  intro n
  induction n with
  | zero =>
    intro r f1 f2 hn _ _
    exact absurd (Nat.le_trans (Json.one_le_jsize r) hn) (by omega)
  | succ n ih =>
    intro r f1 f2 hn h1 h2
    have hr := Json.one_le_jsize r
    match f1, f2 with
    | 0, _ => omega
    | _, 0 => omega
    | m1 + 1, m2 + 1 =>
      have hflat : (childRunsOf r).flatMap (findLLMLeafSpansF m1)
          = (childRunsOf r).flatMap (findLLMLeafSpansF m2) := by
        apply List.flatMap_congr
        intro c hc
        have hcs := jsize_childRunsOf hc
        rw [ih c m1 (Json.jsize c) (by omega) (by omega) (Nat.le_refl _),
          ih c m2 (Json.jsize c) (by omega) (by omega) (Nat.le_refl _)]
      simp only [findLLMLeafSpansF]
      rw [hflat]

theorem findLLMLeafSpans_eq (r : Json) : findLLMLeafSpans r =
    if isLLMRun r then
      if (childRunsOf r).isEmpty then [r]
      else
        if ((childRunsOf r).flatMap findLLMLeafSpans).isEmpty then [r]
        else (childRunsOf r).flatMap findLLMLeafSpans
    else (childRunsOf r).flatMap findLLMLeafSpans := by
  have hr := Json.one_le_jsize r
  have hflat : ∀ m : Nat, Json.jsize r ≤ m + 1 →
      (childRunsOf r).flatMap (findLLMLeafSpansF m)
        = (childRunsOf r).flatMap findLLMLeafSpans := by
    intro m hm
    apply List.flatMap_congr
    intro c hc
    have hcs := jsize_childRunsOf hc
    exact findLLMLeafSpansF_congr (Json.jsize c) c m (Json.jsize c) (Nat.le_refl _) (by omega)
      (Nat.le_refl _)
  unfold findLLMLeafSpans
  match hs : Json.jsize r with
  | 0 => omega
  | m + 1 =>
    simp only [findLLMLeafSpansF]
    rw [hflat m (by omega)]
    rfl

theorem findRelatedRetrieverSpansF_congr : ∀ (n : Nat) (r : Json) (f1 f2 : Nat),
    Json.jsize r ≤ n → Json.jsize r ≤ f1 → Json.jsize r ≤ f2 →
    findRelatedRetrieverSpansF f1 r = findRelatedRetrieverSpansF f2 r := by
  intro n
  induction n with
  | zero =>
    intro r f1 f2 hn _ _
    exact absurd (Nat.le_trans (Json.one_le_jsize r) hn) (by omega)
  | succ n ih =>
    intro r f1 f2 hn h1 h2
    have hr := Json.one_le_jsize r
    match f1, f2 with
    | 0, _ => omega
    | _, 0 => omega
    | m1 + 1, m2 + 1 =>
      have hflat : (childRunsOf r).flatMap (findRelatedRetrieverSpansF m1)
          = (childRunsOf r).flatMap (findRelatedRetrieverSpansF m2) := by
        apply List.flatMap_congr
        intro c hc
        have hcs := jsize_childRunsOf hc
        rw [ih c m1 (Json.jsize c) (by omega) (by omega) (Nat.le_refl _),
          ih c m2 (Json.jsize c) (by omega) (by omega) (Nat.le_refl _)]
      simp only [findRelatedRetrieverSpansF]
      rw [hflat]

theorem findRelatedRetrieverSpans_eq (r : Json) : findRelatedRetrieverSpans r =
    (if isRetrieverRun r then [r] else [])
      ++ (childRunsOf r).flatMap findRelatedRetrieverSpans := by
  have hr := Json.one_le_jsize r
  unfold findRelatedRetrieverSpans
  match hs : Json.jsize r with
  | 0 => omega
  | m + 1 =>
    simp only [findRelatedRetrieverSpansF]
    congr 1
    apply List.flatMap_congr
    intro c hc
    have hcs := jsize_childRunsOf hc
    exact findRelatedRetrieverSpansF_congr (Json.jsize c) c m (Json.jsize c) (Nat.le_refl _)
      (by omega) (Nat.le_refl _)


theorem runNodesF_congr : ∀ (n : Nat) (r : Json) (f1 f2 : Nat),
    Json.jsize r ≤ n → Json.jsize r ≤ f1 → Json.jsize r ≤ f2 →
    runNodesF f1 r = runNodesF f2 r := by
  intro n
  induction n with
  | zero =>
    intro r f1 f2 hn _ _
    exact absurd (Nat.le_trans (Json.one_le_jsize r) hn) (by omega)
  | succ n ih =>
    intro r f1 f2 hn h1 h2
    have hr := Json.one_le_jsize r
    match f1, f2 with
    | 0, _ => omega
    | _, 0 => omega
    | m1 + 1, m2 + 1 =>
      simp only [runNodesF, List.cons.injEq, true_and]
      apply List.flatMap_congr
      intro c hc
      have hcs := jsize_childRunsOf hc
      rw [ih c m1 (Json.jsize c) (by omega) (by omega) (Nat.le_refl _),
        ih c m2 (Json.jsize c) (by omega) (by omega) (Nat.le_refl _)]

theorem runNodes_eq (r : Json) : runNodes r = r :: strictDescendants r := by
  have hr := Json.one_le_jsize r
  unfold runNodes strictDescendants
  match hs : Json.jsize r with
  | 0 => omega
  | m + 1 =>
    simp only [runNodesF, List.cons.injEq, true_and]
    apply List.flatMap_congr
    intro c hc
    have hcs := jsize_childRunsOf hc
    exact runNodesF_congr (Json.jsize c) c m (Json.jsize c) (Nat.le_refl _) (by omega)
      (Nat.le_refl _)

theorem mem_runNodes_self (r : Json) : r ∈ runNodes r := by
  rw [runNodes_eq]
  exact List.mem_cons_self _ _

theorem jsize_of_mem_runNodes : ∀ (n : Nat) (r s : Json), Json.jsize r ≤ n →
    s ∈ runNodes r → Json.jsize s ≤ Json.jsize r := by
  intro n
  induction n with
  | zero =>
    intro r s hn _
    exact absurd (Nat.le_trans (Json.one_le_jsize r) hn) (by omega)
  | succ n ih =>
    intro r s hn hs
    rw [runNodes_eq] at hs
    rcases List.mem_cons.mp hs with rfl | hm
    · exact Nat.le_refl _
    · obtain ⟨c, hc, hsc⟩ := List.mem_flatMap.mp hm
      have hcs := jsize_childRunsOf hc
      have := ih c s (by omega) hsc
      omega

theorem jsize_of_mem_strictDescendants {r s : Json} (h : s ∈ strictDescendants r) :
    Json.jsize s < Json.jsize r := by
  obtain ⟨c, hc, hsc⟩ := List.mem_flatMap.mp h
  have hcs := jsize_childRunsOf hc
  have := jsize_of_mem_runNodes (Json.jsize c) c s (Nat.le_refl _) hsc
  omega

theorem runNodes_subset : ∀ (n : Nat) (r s : Json), Json.jsize r ≤ n →
    s ∈ runNodes r → ∀ x ∈ runNodes s, x ∈ runNodes r := by
  intro n
  induction n with
  | zero =>
    intro r s hn _
    exact absurd (Nat.le_trans (Json.one_le_jsize r) hn) (by omega)
  | succ n ih =>
    intro r s hn hs x hx
    rw [runNodes_eq] at hs
    rcases List.mem_cons.mp hs with rfl | hm
    · exact hx
    · obtain ⟨c, hc, hsc⟩ := List.mem_flatMap.mp hm
      have hcs := jsize_childRunsOf hc
      have hxc := ih c s (by omega) hsc x hx
      rw [runNodes_eq]
      exact List.mem_cons_of_mem _ (List.mem_flatMap.mpr ⟨c, hc, hxc⟩)

theorem findLLMLeafSpans_ne_nil_of_llm {r : Json} (h : isLLMRun r = true) :
    findLLMLeafSpans r ≠ [] := by
  rw [findLLMLeafSpans_eq, h]
  simp only [if_true]
  split
  · simp
  · split
    · simp
    · next hne => simpa [List.isEmpty_iff] using hne

theorem findLLMLeafSpans_nil_iff : ∀ (n : Nat) (r : Json), Json.jsize r ≤ n →
    (findLLMLeafSpans r = [] ↔ ∀ s ∈ runNodes r, isLLMRun s = false) := by
  intro n
  induction n with
  | zero =>
    intro r hn
    exact absurd (Nat.le_trans (Json.one_le_jsize r) hn) (by omega)
  | succ n ih =>
    intro r hn
    by_cases hL : isLLMRun r = true
    · constructor
      · intro hnil
        exact absurd hnil (findLLMLeafSpans_ne_nil_of_llm hL)
      · intro hall
        have := hall r (mem_runNodes_self r)
        rw [hL] at this
        cases this
    · have hLf : isLLMRun r = false := by
        cases hv : isLLMRun r
        · rfl
        · exact absurd hv hL
      rw [findLLMLeafSpans_eq, hLf]
      simp only [Bool.false_eq_true, if_false]
      rw [List.flatMap_eq_nil_iff, runNodes_eq]
      constructor
      · intro hall s hs
        rcases List.mem_cons.mp hs with rfl | hm
        · exact hLf
        · obtain ⟨c, hc, hsc⟩ := List.mem_flatMap.mp hm
          have hcs := jsize_childRunsOf hc
          exact (ih c (by omega)).mp (hall c hc) s hsc
      · intro hall c hc
        have hcs := jsize_childRunsOf hc
        refine (ih c (by omega)).mpr (fun s hs => ?_)
        exact hall s (List.mem_cons_of_mem _ (List.mem_flatMap.mpr ⟨c, hc, hs⟩))

theorem findLLMLeafSpans_characterization : ∀ (n : Nat) (r : Json), Json.jsize r ≤ n →
    findLLMLeafSpans r =
      (runNodes r).filter (fun s => isLLMRun s && !hasLLMDescendant s) := by
  intro n
  induction n with
  | zero =>
    intro r hn
    exact absurd (Nat.le_trans (Json.one_le_jsize r) hn) (by omega)
  | succ n ih =>
    intro r hn
    have hfm : (childRunsOf r).flatMap findLLMLeafSpans =
        (strictDescendants r).filter (fun s => isLLMRun s && !hasLLMDescendant s) := by
      unfold strictDescendants
      rw [List.filter_flatMap]
      apply List.flatMap_congr
      intro c hc
      have hcs := jsize_childRunsOf hc
      exact ih c (by omega)
    rw [findLLMLeafSpans_eq, runNodes_eq]
    by_cases hL : isLLMRun r = true
    · rw [hL]
      simp only [if_true]
      by_cases hC : (childRunsOf r).isEmpty = true
      · rw [hC]
        simp only [if_true]
        have hcempty : childRunsOf r = [] := List.isEmpty_iff.mp hC
        have hdesc : strictDescendants r = [] := by
          unfold strictDescendants
          rw [hcempty]
          rfl
        have hp : hasLLMDescendant r = false := by
          unfold hasLLMDescendant
          rw [hdesc]
          rfl
        rw [List.filter_cons]
        simp [hL, hp, hdesc]
      · have hCf : (childRunsOf r).isEmpty = false := by
          cases hv : (childRunsOf r).isEmpty
          · rfl
          · exact absurd hv hC
        rw [hCf]
        simp only [Bool.false_eq_true, if_false]
        by_cases hE : ((childRunsOf r).flatMap findLLMLeafSpans).isEmpty = true
        · rw [hE]
          simp only [if_true]
          have hnilflat : (childRunsOf r).flatMap findLLMLeafSpans = [] :=
            List.isEmpty_iff.mp hE
          have hnollm : ∀ s ∈ strictDescendants r, isLLMRun s = false := by
            intro s hs
            obtain ⟨c, hc, hsc⟩ := List.mem_flatMap.mp hs
            have hcs := jsize_childRunsOf hc
            have hcnil : findLLMLeafSpans c = [] :=
              (List.flatMap_eq_nil_iff.mp hnilflat) c hc
            exact (findLLMLeafSpans_nil_iff (Json.jsize c) c (Nat.le_refl _)).mp hcnil s hsc
          have hp : hasLLMDescendant r = false := by
            unfold hasLLMDescendant
            exact List.any_eq_false.mpr (fun s hs => by simp [hnollm s hs])
          have hfilnil : (strictDescendants r).filter
              (fun s => isLLMRun s && !hasLLMDescendant s) = [] := by
            apply List.filter_eq_nil_iff.mpr
            intro s hs
            simp [hnollm s hs]
          rw [List.filter_cons]
          simp [hL, hp, hfilnil]
        · have hEf : ((childRunsOf r).flatMap findLLMLeafSpans).isEmpty = false := by
            cases hv : ((childRunsOf r).flatMap findLLMLeafSpans).isEmpty
            · rfl
            · exact absurd hv hE
          rw [hEf]
          simp only [Bool.false_eq_true, if_false]
          have hflatne : (childRunsOf r).flatMap findLLMLeafSpans ≠ [] := by
            intro hcon
            rw [hcon] at hEf
            simp at hEf
          have hp : hasLLMDescendant r = true := by
            obtain ⟨x, hx⟩ := List.exists_mem_of_ne_nil _ hflatne
            obtain ⟨c, hc, hxc⟩ := List.mem_flatMap.mp hx
            have hcs := jsize_childRunsOf hc
            have hcne : findLLMLeafSpans c ≠ [] := by
              intro hcon
              rw [hcon] at hxc
              simp at hxc
            have : ¬(∀ s ∈ runNodes c, isLLMRun s = false) := by
              intro hall
              exact hcne ((findLLMLeafSpans_nil_iff (Json.jsize c) c (Nat.le_refl _)).mpr hall)
            push_neg at this
            obtain ⟨s, hs, hsllm⟩ := this
            have hsllm' : isLLMRun s = true := by
              cases hv : isLLMRun s
              · exact absurd hv hsllm
              · rfl
            apply List.any_eq_true.mpr
            exact ⟨s, List.mem_flatMap.mpr ⟨c, hc, hs⟩, hsllm'⟩
          rw [List.filter_cons]
          simp only [hL, hp, Bool.not_true, Bool.and_false, Bool.false_eq_true, if_false]
          exact hfm
    · have hLf : isLLMRun r = false := by
        cases hv : isLLMRun r
        · rfl
        · exact absurd hv hL
      rw [hLf]
      simp only [Bool.false_eq_true, if_false]
      rw [List.filter_cons]
      simp only [hLf, Bool.false_and, Bool.false_eq_true, if_false]
      exact hfm

theorem fieldsLookup_map_set_ne {fs : List (String × Json)} {k k' : String} {v : Json}
    (h : k' ≠ k) :
    fieldsLookup (fs.map (fun p => if p.1 = k then (k, v) else p)) k'
      = fieldsLookup fs k' := by
  induction fs with
  | nil => rfl
  | cons p rest ih =>
    obtain ⟨a, w⟩ := p
    simp only [List.map_cons]
    by_cases ha : a = k
    · rw [if_pos ha]
      simp only [fieldsLookup]
      rw [if_neg (fun hc => h hc.symm), if_neg (fun hc => h (ha ▸ hc.symm)), ih]
    · rw [if_neg ha]
      simp only [fieldsLookup]
      by_cases hak : a = k'
      · rw [if_pos hak, if_pos hak]
      · rw [if_neg hak, if_neg hak, ih]

theorem fieldsLookup_append_single_ne {fs : List (String × Json)} {k k' : String} {v : Json}
    (h : k' ≠ k) :
    fieldsLookup (fs ++ [(k, v)]) k' = fieldsLookup fs k' := by
  induction fs with
  | nil =>
    simp only [List.nil_append, fieldsLookup]
    rw [if_neg (fun hc => h hc.symm)]
  | cons p rest ih =>
    obtain ⟨a, w⟩ := p
    simp only [List.cons_append, fieldsLookup]
    by_cases hak : a = k'
    · simp [hak]
    · rw [if_neg hak, if_neg hak]
      exact ih

theorem fieldsLookup_objSet_ne {fs : List (String × Json)} {k k' : String} {v : Json}
    (h : k' ≠ k) : fieldsLookup (objSet fs k v) k' = fieldsLookup fs k' := by
  unfold objSet
  split
  · exact fieldsLookup_map_set_ne h
  · exact fieldsLookup_append_single_ne h

theorem fieldsLookup_append_single_self {fs : List (String × Json)} {k : String} {v : Json}
    (h : ∀ p ∈ fs, p.1 ≠ k) : fieldsLookup (fs ++ [(k, v)]) k = some v := by
  induction fs with
  | nil => simp [fieldsLookup]
  | cons p rest ih =>
    obtain ⟨a, w⟩ := p
    simp only [List.cons_append, fieldsLookup]
    rw [if_neg (h (a, w) (List.mem_cons_self _ _))]
    exact ih (fun q hq => h q (List.mem_cons_of_mem _ hq))

theorem fieldsLookup_map_set_self {fs : List (String × Json)} {k : String} {v : Json}
    (h : fs.any (fun p => decide (p.1 = k)) = true) :
    fieldsLookup (fs.map (fun p => if p.1 = k then (k, v) else p)) k = some v := by
  induction fs with
  | nil => simp at h
  | cons p rest ih =>
    obtain ⟨a, w⟩ := p
    simp only [List.map_cons]
    by_cases ha : a = k
    · rw [if_pos ha]
      simp [fieldsLookup]
    · rw [if_neg ha]
      simp only [fieldsLookup]
      rw [if_neg ha]
      apply ih
      simp only [List.any_cons, Bool.or_eq_true] at h
      rcases h with h1 | h2
      · exact absurd (of_decide_eq_true h1) ha
      · exact h2

theorem fieldsLookup_objSet_self (fs : List (String × Json)) (k : String) (v : Json) :
    fieldsLookup (objSet fs k v) k = some v := by
  unfold objSet
  by_cases hany : fs.any (fun p => decide (p.1 = k)) = true
  · rw [if_pos hany]
    exact fieldsLookup_map_set_self hany
  · rw [if_neg hany]
    apply fieldsLookup_append_single_self
    intro p hp hc
    exact hany (List.any_eq_true.mpr ⟨p, hp, by simpa using hc⟩)

theorem fieldsLookup_none_of_no_key {kvs : List (String × Json)} {k : String}
    (h : ∀ p ∈ kvs, p.1 ≠ k) : fieldsLookup kvs k = none := by
  induction kvs with
  | nil => rfl
  | cons p rest ih =>
    obtain ⟨a, w⟩ := p
    simp only [fieldsLookup]
    rw [if_neg (h (a, w) (List.mem_cons_self _ _))]
    exact ih (fun q hq => h q (List.mem_cons_of_mem _ hq))

theorem jGet_jSpreadWith_ne (data : Json) (kvs : List (String × Json)) (k : String)
    (h : ∀ p ∈ kvs, p.1 ≠ k) : jGet (jSpreadWith data kvs) k = jGet data k := by
  have haux : ∀ (kvs' : List (String × Json)) (fs : List (String × Json)),
      (∀ p ∈ kvs', p.1 ≠ k) →
      fieldsLookup (kvs'.foldl (fun acc p => objSet acc p.1 p.2) fs) k = fieldsLookup fs k := by
    intro kvs'
    induction kvs' with
    | nil => intro fs _; rfl
    | cons p rest ih =>
      intro fs hp
      simp only [List.foldl_cons]
      rw [ih (objSet fs p.1 p.2) (fun q hq => hp q (List.mem_cons_of_mem _ hq)),
        fieldsLookup_objSet_ne (fun hc => hp p (List.mem_cons_self _ _) hc.symm)]
  cases data with
  | obj fs => exact haux kvs fs h
  | null => simp [jSpreadWith, jGet, fieldsLookup_none_of_no_key h]
  | bool b => simp [jSpreadWith, jGet, fieldsLookup_none_of_no_key h]
  | num n => simp [jSpreadWith, jGet, fieldsLookup_none_of_no_key h]
  | str s => simp [jSpreadWith, jGet, fieldsLookup_none_of_no_key h]
  | arr xs => simp [jSpreadWith, jGet, fieldsLookup_none_of_no_key h]

theorem passThrough_jGet_ne (env : JsEnv) (data : Json) (k : String)
    (h1 : k ≠ "id") (h2 : k ≠ "version") (h3 : k ≠ "created_at") (h4 : k ≠ "updated_at")
    (h5 : k ≠ "status") :
    jGet (passThroughReviewItem env data) k = jGet data k := by
  unfold passThroughReviewItem
  apply jGet_jSpreadWith_ne
  intro p hp
  simp only [List.mem_cons, List.not_mem_nil, or_false] at hp
  rcases hp with rfl | rfl | rfl | rfl | rfl
  · exact fun hc => h1 hc.symm
  · exact fun hc => h2 hc.symm
  · exact fun hc => h3 hc.symm
  · exact fun hc => h4 hc.symm
  · exact fun hc => h5 hc.symm

theorem passThrough_jGet_status (env : JsEnv) (data : Json) :
    jGet (passThroughReviewItem env data) "status"
      = some (jFirstTruthy [jGet data "status"] (.str "pending")) := by
  unfold passThroughReviewItem jSpreadWith
  cases data with
  | obj fs =>
    simp only [List.foldl_cons, List.foldl_nil, jGet]
    exact fieldsLookup_objSet_self _ _ _
  | null => simp [jGet, fieldsLookup]
  | bool b => simp [jGet, fieldsLookup]
  | num n => simp [jGet, fieldsLookup]
  | str s => simp [jGet, fieldsLookup]
  | arr xs => simp [jGet, fieldsLookup]

theorem parseJsonlLines_success_eq (env : JsEnv) (m : OTelMappingConfig)
    (parse : String → Option Json) (text : String) :
    (parseJsonlLines env m parse text).success =
      ((parseJsonlLines env m parse text).errors.isEmpty
        || !(parseJsonlLines env m parse text).items.isEmpty) := rfl

theorem parseJsonData_success_eq (env : JsEnv) (m : OTelMappingConfig) (data : Json) :
    (parseJsonData env m data).success =
      ((parseJsonData env m data).errors.isEmpty
        || !(parseJsonData env m data).items.isEmpty) := by
  unfold parseJsonData
  split
  · rfl
  · split <;> first
      | rfl
      | (split <;> rfl)

/-- C1 (corrected): the import's `success` flag is not "true iff at least one
record was produced"; it is the weaker `errors.length === 0 ||
items.length > 0`, so an import that produced zero records and recorded zero
errors still reports success (see `c1_counterexample`).  This theorem states
the formula that does hold, for the whole import entry point. -/
theorem c1_amended_success_formula (env : JsEnv) (m : OTelMappingConfig)
    (parse : String → Option Json) (size : Nat) (text : String) :
    (parseJsonlFile env m parse size text).success =
      ((parseJsonlFile env m parse size text).errors.isEmpty
        || !(parseJsonlFile env m parse size text).items.isEmpty) := by
  unfold parseJsonlFile
  split
  · rfl
  · unfold importDispatch
    split
    · split
      · exact parseJsonData_success_eq env m _
      · exact parseJsonlLines_success_eq env m parse text
    · exact parseJsonlLines_success_eq env m parse text

/-- C1 (counterexample): importing the whole-document OTLP payload
`\x7b"resourceSpans":[]\x7d` is handled by the detected OTel adapter, which
normalizes it to zero records, yet the import reports `success = true` with
zero errors — refuting "success is true iff at least one record was
produced". -/
theorem c1_counterexample :
    (parseJsonlFile witEnv DEFAULT_OTEL_MAPPINGS cxEmptyOtelParse 20 cxEmptyOtelText).success
        = true
    ∧ (parseJsonlFile witEnv DEFAULT_OTEL_MAPPINGS cxEmptyOtelParse 20
        cxEmptyOtelText).itemsImported = 0
    ∧ (parseJsonlFile witEnv DEFAULT_OTEL_MAPPINGS cxEmptyOtelParse 20
        cxEmptyOtelText).items = [] := by
  refine ⟨?_, ?_, ?_⟩ <;> decide

/-- C7 (confirmed): a payload larger than the 50 MiB ceiling is rejected
before any inspection of its content — the result is the constant failure
record with exactly one error whose message names the 50MB limit, for every
content string; and a payload at or below the ceiling is never rejected by
this gate (it proceeds to the parse dispatch). -/
theorem c7_size_gate :
    (∀ (env : JsEnv) (m : OTelMappingConfig) (parse : String → Option Json)
        (size : Nat) (text : String), size > MAX_FILE_SIZE →
      parseJsonlFile env m parse size text =
        { success := false, itemsImported := 0, items := [],
          errors := [⟨0, sizeLimitMessage⟩] })
    ∧ (∀ (env : JsEnv) (m : OTelMappingConfig) (parse : String → Option Json)
        (size : Nat) (text : String), size ≤ MAX_FILE_SIZE →
      parseJsonlFile env m parse size text = importDispatch env m parse text)
    ∧ (∃ pre post, sizeLimitMessage = pre ++ "50MB" ++ post) := by
  refine ⟨?_, ?_, ⟨"File size exceeds ", " limit", by decide⟩⟩
  · intro env m parse size text h
    unfold parseJsonlFile
    rw [if_pos h]
  · intro env m parse size text h
    unfold parseJsonlFile
    rw [if_neg (by omega)]

/-- C7 witness: the gate at the concrete sizes 52428801 (one byte over the
ceiling: rejected with the 50MB-limit error) and 52428800 (at the ceiling:
dispatched normally). -/
theorem c7_witness :
    (parseJsonlFile witEnv DEFAULT_OTEL_MAPPINGS parseNone 52428801 "ignored" =
      { success := false, itemsImported := 0, items := [],
        errors := [⟨0, sizeLimitMessage⟩] })
    ∧ (parseJsonlFile witEnv DEFAULT_OTEL_MAPPINGS parseNone 52428800 "" =
        importDispatch witEnv DEFAULT_OTEL_MAPPINGS parseNone "") :=
  ⟨c7_size_gate.1 witEnv DEFAULT_OTEL_MAPPINGS parseNone 52428801 "ignored" (by decide),
   c7_size_gate.2.1 witEnv DEFAULT_OTEL_MAPPINGS parseNone 52428800 "" (by decide)⟩

/-- C9 (confirmed): `setOTelMappings` is a shallow merge, so every top-level
key absent from the override keeps its current value — in particular, applied
to the registry's initial `DEFAULT_OTEL_MAPPINGS` state, every key not
supplied retains its built-in default, including all three nested
token-attribute lists whenever `tokenAttributes` is not overridden (the
TypeScript `Partial` type forces `tokenAttributes`, when supplied, to carry
all three lists). -/
theorem c9_partial_override (cur : OTelMappingConfig) (p : PartialOTelMappingConfig) :
    (p.promptAttributes = none →
      (setOTelMappings cur p).promptAttributes = cur.promptAttributes)
    ∧ (p.responseAttributes = none →
      (setOTelMappings cur p).responseAttributes = cur.responseAttributes)
    ∧ (p.modelAttributes = none →
      (setOTelMappings cur p).modelAttributes = cur.modelAttributes)
    ∧ (p.tokenAttributes = none →
      (setOTelMappings cur p).tokenAttributes.input = cur.tokenAttributes.input
      ∧ (setOTelMappings cur p).tokenAttributes.output = cur.tokenAttributes.output
      ∧ (setOTelMappings cur p).tokenAttributes.total = cur.tokenAttributes.total)
    ∧ (p.llmSpanNames = none →
      (setOTelMappings cur p).llmSpanNames = cur.llmSpanNames)
    ∧ (p.retrieverSpanNames = none →
      (setOTelMappings cur p).retrieverSpanNames = cur.retrieverSpanNames) := by
  refine ⟨fun h => ?_, fun h => ?_, fun h => ?_, fun h => ?_, fun h => ?_, fun h => ?_⟩
  all_goals simp [setOTelMappings, h]

/-- C9 witness: overriding only `llmSpanNames` on the default configuration
leaves `promptAttributes` and the nested token-attribute lists at their
built-in defaults while the overridden key takes the supplied value. -/
theorem c9_witness :
    (setOTelMappings DEFAULT_OTEL_MAPPINGS witPartial).promptAttributes
        = DEFAULT_OTEL_MAPPINGS.promptAttributes
    ∧ (setOTelMappings DEFAULT_OTEL_MAPPINGS witPartial).tokenAttributes.input
        = DEFAULT_OTEL_MAPPINGS.tokenAttributes.input
    ∧ (setOTelMappings DEFAULT_OTEL_MAPPINGS witPartial).llmSpanNames = ["my.llm"] :=
  ⟨(c9_partial_override DEFAULT_OTEL_MAPPINGS witPartial).1 rfl,
   ((c9_partial_override DEFAULT_OTEL_MAPPINGS witPartial).2.2.2.1 rfl).1,
   by decide⟩

theorem fieldsLookup_append (a b : List (String × Json)) (k : String) :
    fieldsLookup (a ++ b) k =
      (match fieldsLookup a k with
       | some v => some v
       | none => fieldsLookup b k) := by
  induction a with
  | nil => rfl
  | cons p rest ih =>
    obtain ⟨x, w⟩ := p
    simp only [List.cons_append, fieldsLookup]
    by_cases hx : x = k
    · rw [if_pos hx, if_pos hx]
    · rw [if_neg hx, if_neg hx]
      exact ih

theorem convertOpenAIFormat_status (env : JsEnv) (data : Json) :
    jGet (convertOpenAIFormat env data) "status" = some (.str "pending") := by
  simp [convertOpenAIFormat, jGet, fieldsLookup]

theorem convertOpenAIFineTuneFormat_status (env : JsEnv) (data : Json) :
    jGet (convertOpenAIFineTuneFormat env data) "status" = some (.str "pending") := by
  simp [convertOpenAIFineTuneFormat, jGet, fieldsLookup]

theorem convertGenericFormat_status (env : JsEnv) (data : Json) :
    jGet (convertGenericFormat env data) "status" = some (.str "pending") := by
  simp [convertGenericFormat, jGet, fieldsLookup]

theorem convertBestEffort_status (env : JsEnv) (data : Json) :
    jGet (convertBestEffort env data) "status" = some (.str "pending") := by
  simp [convertBestEffort, jGet, fieldsLookup]

theorem convertRunToReviewItem_status (env : JsEnv) (run : Json) (ctx : List Json) :
    jGet (convertRunToReviewItem env run ctx) "status" = some (.str "pending") := by
  simp [convertRunToReviewItem, jGet, fieldsLookup]

theorem convertSpanToReviewItem_status (env : JsEnv) (m : OTelMappingConfig)
    (ctx : List Json) (span : Json) :
    jGet (convertSpanToReviewItem env m ctx span) "status" = some (.str "pending") := by
  simp [convertSpanToReviewItem, jGet, fieldsLookup]

/-- C2 (corrected): every *converting* stage — the OpenAI-completion,
fine-tune, generic and best-effort converters and both trace adapters —
stamps `status` to `"pending"`; but the already-canonical pass-through stage
computes `status: data.status || 'pending'`, preserving a truthy source
status instead of initializing it (see `c2_counterexample`). -/
theorem c2_amended_status_pending :
    (∀ (env : JsEnv) (data : Json) (n : Nat), isReviewItemFormat data = false →
      jGet (normalizeToReviewItem env data n) "status" = some (.str "pending"))
    ∧ (∀ (env : JsEnv) (run : Json) (ctx : List Json),
      jGet (convertRunToReviewItem env run ctx) "status" = some (.str "pending"))
    ∧ (∀ (env : JsEnv) (m : OTelMappingConfig) (ctx : List Json) (span : Json),
      jGet (convertSpanToReviewItem env m ctx span) "status" = some (.str "pending"))
    ∧ (∀ (env : JsEnv) (data : Json) (n : Nat), isReviewItemFormat data = true →
      jGet (normalizeToReviewItem env data n) "status"
        = some (jFirstTruthy [jGet data "status"] (.str "pending"))) := by
  refine ⟨?_, convertRunToReviewItem_status, convertSpanToReviewItem_status, ?_⟩
  · intro env data n h
    unfold normalizeToReviewItem
    rw [h]
    simp only [Bool.false_eq_true, if_false]
    split
    · exact convertOpenAIFormat_status env data
    · split
      · exact convertOpenAIFineTuneFormat_status env data
      · split
        · exact convertGenericFormat_status env data
        · exact convertBestEffort_status env data
  · intro env data n h
    unfold normalizeToReviewItem
    rw [h]
    simp only [if_true]
    exact passThrough_jGet_status env data

/-- C2 witness: a converting-stage input (a generic object, which is not
already-canonical) gets status `"pending"`, while the pass-through formula,
applied to a record imported with `status: "approved"`, evaluates to
`"approved"`. -/
theorem c2_witness :
    jGet (normalizeToReviewItem witEnv cxEmptyResponse 1) "status" = some (.str "pending")
    ∧ jGet (normalizeToReviewItem witEnv cxApprovedRecord 1) "status"
        = some (jFirstTruthy [jGet cxApprovedRecord "status"] (.str "pending"))
    ∧ jFirstTruthy [jGet cxApprovedRecord "status"] (.str "pending") = .str "approved" :=
  ⟨c2_amended_status_pending.1 witEnv cxEmptyResponse 1 (by decide),
   c2_amended_status_pending.2.2.2 witEnv cxApprovedRecord 1 (by decide),
   by decide⟩

/-- C2 (counterexample): normalizing an already-canonical record that carries
`status: "approved"` yields a record whose status is `"approved"`, not
`"pending"` — the core does not always initialize status to pending. -/
theorem c2_counterexample :
    jGet (normalizeToReviewItem witEnv cxApprovedRecord 1) "status" = some (.str "approved")
    ∧ ¬(jGet (normalizeToReviewItem witEnv cxApprovedRecord 1) "status"
        = some (.str "pending")) := by
  refine ⟨?_, ?_⟩ <;> decide

theorem normalizeToReviewItem_of_rif {env : JsEnv} {data : Json} {n : Nat}
    (h : isReviewItemFormat data = true) :
    normalizeToReviewItem env data n = passThroughReviewItem env data := by
  unfold normalizeToReviewItem
  rw [h]
  simp

/-- C10 (confirmed): pass-through normalization is idempotent on content —
normalizing an already-canonical record and then normalizing the result again
(under any environments, i.e. any wall clock and uuid draws) leaves `input`,
`outputs` and `trace_metadata` unchanged between the two passes; only the
bookkeeping overrides (`updated_at`, and `status`/`id`/`created_at` defaults)
are touched by the second pass, and those it preserves as well since the
first pass made them truthy. -/
theorem c10_passthrough_idempotent (env1 env2 : JsEnv) (data : Json)
    (h : isReviewItemFormat data = true) :
    jGet (normalizeToReviewItem env2 (normalizeToReviewItem env1 data 1) 1) "input"
      = jGet (normalizeToReviewItem env1 data 1) "input"
    ∧ jGet (normalizeToReviewItem env2 (normalizeToReviewItem env1 data 1) 1) "outputs"
      = jGet (normalizeToReviewItem env1 data 1) "outputs"
    ∧ jGet (normalizeToReviewItem env2 (normalizeToReviewItem env1 data 1) 1) "trace_metadata"
      = jGet (normalizeToReviewItem env1 data 1) "trace_metadata" := by
  have e1 : normalizeToReviewItem env1 data 1 = passThroughReviewItem env1 data :=
    normalizeToReviewItem_of_rif h
  have hin : jGet (passThroughReviewItem env1 data) "input" = jGet data "input" :=
    passThrough_jGet_ne env1 data "input"
      (by decide) (by decide) (by decide) (by decide) (by decide)
  have hout : jGet (passThroughReviewItem env1 data) "outputs" = jGet data "outputs" :=
    passThrough_jGet_ne env1 data "outputs"
      (by decide) (by decide) (by decide) (by decide) (by decide)
  have hrif1 : isReviewItemFormat (passThroughReviewItem env1 data) = true := by
    unfold isReviewItemFormat at h ⊢
    rw [hin, hout]
    exact h
  have e2 : normalizeToReviewItem env2 (passThroughReviewItem env1 data) 1
      = passThroughReviewItem env2 (passThroughReviewItem env1 data) :=
    normalizeToReviewItem_of_rif hrif1
  rw [e1, e2]
  exact ⟨passThrough_jGet_ne env2 _ "input"
      (by decide) (by decide) (by decide) (by decide) (by decide),
    passThrough_jGet_ne env2 _ "outputs"
      (by decide) (by decide) (by decide) (by decide) (by decide),
    passThrough_jGet_ne env2 _ "trace_metadata"
      (by decide) (by decide) (by decide) (by decide) (by decide)⟩

/-- C10 witness: the idempotence theorem applied to a concrete canonical
record, re-normalized under a different wall clock and uuid supply. -/
theorem c10_witness :
    jGet (normalizeToReviewItem witEnv2 (normalizeToReviewItem witEnv witCanonical 1) 1) "input"
      = jGet (normalizeToReviewItem witEnv witCanonical 1) "input"
    ∧ jGet (normalizeToReviewItem witEnv2 (normalizeToReviewItem witEnv witCanonical 1) 1)
        "outputs"
      = jGet (normalizeToReviewItem witEnv witCanonical 1) "outputs"
    ∧ jGet (normalizeToReviewItem witEnv2 (normalizeToReviewItem witEnv witCanonical 1) 1)
        "trace_metadata"
      = jGet (normalizeToReviewItem witEnv witCanonical 1) "trace_metadata" :=
  c10_passthrough_idempotent witEnv witEnv2 witCanonical (by decide)

theorem jFirstTruthy_str_of_all {os : List (Option Json)} {d : String}
    (h : ∀ o ∈ os, ∀ v, o = some v → strOrFalsy v = true) :
    ∃ s, jFirstTruthy os (.str d) = .str s := by
  induction os with
  | nil => exact ⟨d, rfl⟩
  | cons o rest ih =>
    match o with
    | none =>
      simp only [jFirstTruthy]
      exact ih (fun o' ho' => h o' (List.mem_cons_of_mem _ ho'))
    | some v =>
      have hv := h (some v) (List.mem_cons_self _ _) v rfl
      by_cases ht : jTruthy v = true
      · unfold strOrFalsy at hv
        rw [ht] at hv
        simp only [Bool.not_true, Bool.false_or] at hv
        cases v with
        | str s => exact ⟨s, by simp [jFirstTruthy, ht]⟩
        | null => simp at hv
        | bool b => simp at hv
        | num n => simp at hv
        | arr xs => simp at hv
        | obj fs => simp at hv
      · have ht' : jTruthy v = false := by
          cases hb : jTruthy v
          · rfl
          · exact absurd hb ht
        simp only [jFirstTruthy, ht', Bool.false_eq_true, if_false]
        exact ih (fun o' ho' => h o' (List.mem_cons_of_mem _ ho'))

theorem findRole_content_ok {msgs : List Json} {role : String} {u v : Json}
    (hall : msgs.all
      (fun mg => !(jGet mg "role" == some (.str role)) || contentOk mg) = true)
    (hf : findRole msgs role = some u) (hc : jGet u "content" = some v) :
    strOrFalsy v = true := by
  have hu := List.mem_of_find?_eq_some hf
  have hrole := List.find?_some hf
  have := List.all_eq_true.mp hall u hu
  rw [hrole] at this
  simp only [Bool.not_true, Bool.false_or] at this
  unfold contentOk at this
  rw [hc] at this
  exact this

theorem fineTune_prompt_value (env : JsEnv) (data : Json) :
    recPrompt (convertOpenAIFineTuneFormat env data)
      = some (jFirstTruthy
          [(findRole (match jGet data "messages" with
              | some (.arr xs) => xs
              | _ => []) "user").bind (fun mg => jGet mg "content")] (.str "")) := by
  unfold convertOpenAIFineTuneFormat recPrompt
  split <;> simp [jGet, fieldsLookup]

theorem fineTune_prompt_str {env : JsEnv} {data : Json}
    (h : fineTuneUserContentOk data = true) :
    ∃ s, recPrompt (convertOpenAIFineTuneFormat env data) = some (.str s) := by
  rw [fineTune_prompt_value]
  unfold fineTuneUserContentOk at h
  have hstr : ∃ s, jFirstTruthy
      [(findRole (match jGet data "messages" with
          | some (.arr xs) => xs
          | _ => []) "user").bind (fun mg => jGet mg "content")] (.str "") = .str s := by
    apply jFirstTruthy_str_of_all
    intro o ho v hov
    simp only [List.mem_cons, List.not_mem_nil, or_false] at ho
    subst ho
    obtain ⟨u, hu, hc⟩ := Option.bind_eq_some.mp hov
    cases hm : jGet data "messages" with
    | none =>
      rw [hm] at hu
      simp [findRole] at hu
    | some mv =>
      cases mv with
      | arr msgs =>
        rw [hm] at hu h
        exact findRole_content_ok h hu hc
      | null => rw [hm] at hu; simp [findRole] at hu
      | bool b => rw [hm] at hu; simp [findRole] at hu
      | num n => rw [hm] at hu; simp [findRole] at hu
      | str s => rw [hm] at hu; simp [findRole] at hu
      | obj fs => rw [hm] at hu; simp [findRole] at hu
  obtain ⟨s, hs⟩ := hstr
  exact ⟨s, by rw [hs]⟩

theorem isSomeStr_exists {o : Option Json}
    (h : (match o with
          | some (.str _) => true
          | _ => false) = true) :
    ∃ s, o = some (.str s) := by
  match o with
  | some (.str s) => exact ⟨s, rfl⟩
  | some .null => simp at h
  | some (.bool b) => simp at h
  | some (.num n) => simp at h
  | some (.arr xs) => simp at h
  | some (.obj fs) => simp at h
  | none => simp at h

theorem convertOpenAIFormat_prompt_str (env : JsEnv) (data : Json) :
    ∃ s, recPrompt (convertOpenAIFormat env data) = some (.str s) := by
  apply isSomeStr_exists
  simp [convertOpenAIFormat, recPrompt, jGet, fieldsLookup]

theorem convertGenericFormat_prompt_str (env : JsEnv) (data : Json) :
    ∃ s, recPrompt (convertGenericFormat env data) = some (.str s) := by
  apply isSomeStr_exists
  rcases htag : jGet data "tags" with _ | tv
  · simp only [convertGenericFormat, recPrompt, htag]
    simp [jGet, fieldsLookup]
  · cases tv <;>
      (simp only [convertGenericFormat, recPrompt, htag]
       simp [jGet, fieldsLookup])

theorem convertBestEffort_prompt_str (env : JsEnv) (data : Json) :
    ∃ s, recPrompt (convertBestEffort env data) = some (.str s) := by
  apply isSomeStr_exists
  simp [convertBestEffort, recPrompt, jGet, fieldsLookup]

theorem isStr_exists {j : Json}
    (h : (match j with
          | .str _ => true
          | _ => false) = true) :
    ∃ s, j = .str s := by
  match j with
  | .str s => exact ⟨s, rfl⟩
  | .null => simp at h
  | .bool b => simp at h
  | .num n => simp at h
  | .arr xs => simp at h
  | .obj fs => simp at h

theorem convertRunToReviewItem_prompt (env : JsEnv) (run : Json) (ctx : List Json) :
    recPrompt (convertRunToReviewItem env run ctx)
      = some (lsExtractPrompt (jFirstTruthy [jGet run "inputs"] (.obj []))).1 := by
  rcases hsn : jGet run "session_name" with _ | v
  · simp only [convertRunToReviewItem, recPrompt, hsn]
    simp [jGet, fieldsLookup]
  · by_cases hv : jTruthy v = true
    · simp only [convertRunToReviewItem, recPrompt, hsn, hv]
      simp [jGet, fieldsLookup]
    · have hv' : jTruthy v = false := by
        cases hb : jTruthy v
        · rfl
        · exact absurd hb hv
      simp only [convertRunToReviewItem, recPrompt, hsn, hv']
      simp [jGet, fieldsLookup]

theorem lsExtractPrompt_str {inputs : Json} (h : lsPromptOk inputs = true) :
    ∃ s, (lsExtractPrompt inputs).1 = .str s := by
  rcases hm : jGet inputs "messages" with _ | mv
  · simp only [lsExtractPrompt, hm]
    repeat' first
      | exact ⟨_, rfl⟩
      | split
  · cases mv with
    | arr msgs =>
      simp only [lsPromptOk, hm] at h
      simp only [lsExtractPrompt, hm]
      have hstr : ∃ s, jFirstTruthy
          [(msgs.reverse.find? (fun mg => jGet mg "role" == some (.str "user"))).bind
             (fun mg => jGet mg "content"),
           (msgs.find? (fun mg => jGet mg "role" == some (.str "user"))).bind
             (fun mg => jGet mg "content")] (.str "") = .str s := by
        apply jFirstTruthy_str_of_all
        intro o ho v hov
        simp only [List.mem_cons, List.not_mem_nil, or_false] at ho
        have hcase : ∀ (u : Json), u ∈ msgs →
            (jGet u "role" == some (.str "user")) = true →
            jGet u "content" = some v → strOrFalsy v = true := by
          intro u hu hrole hc
          have hok := List.all_eq_true.mp h u hu
          rw [hrole] at hok
          simp only [Bool.not_true, Bool.false_or] at hok
          unfold contentOk at hok
          rw [hc] at hok
          exact hok
        rcases ho with rfl | rfl
        · obtain ⟨u, hu, hc⟩ := Option.bind_eq_some.mp hov
          have hr := List.find?_some hu
          exact hcase u (List.mem_reverse.mp (List.mem_of_find?_eq_some hu)) hr hc
        · obtain ⟨u, hu, hc⟩ := Option.bind_eq_some.mp hov
          have hr := List.find?_some hu
          exact hcase u (List.mem_of_find?_eq_some hu) hr hc
      obtain ⟨s, hs⟩ := hstr
      exact ⟨s, hs⟩
    | null =>
      simp only [lsExtractPrompt, hm]
      repeat' first
        | exact ⟨_, rfl⟩
        | split
    | bool b =>
      simp only [lsExtractPrompt, hm]
      repeat' first
        | exact ⟨_, rfl⟩
        | split
    | num n =>
      simp only [lsExtractPrompt, hm]
      repeat' first
        | exact ⟨_, rfl⟩
        | split
    | str s =>
      simp only [lsExtractPrompt, hm]
      repeat' first
        | exact ⟨_, rfl⟩
        | split
    | obj fs =>
      simp only [lsExtractPrompt, hm]
      repeat' first
        | exact ⟨_, rfl⟩
        | split

theorem convertSpanToReviewItem_prompt (env : JsEnv) (m : OTelMappingConfig)
    (ctx : List Json) (span : Json) :
    recPrompt (convertSpanToReviewItem env m ctx span)
      = some (otelExtractPrompt span m).1 := by
  simp [convertSpanToReviewItem, recPrompt, jGet, fieldsLookup]

theorem otelExtractPrompt_str {span : Json} {m : OTelMappingConfig}
    (h : otelPromptOk span m = true) :
    ∃ s, (otelExtractPrompt span m).1 = .str s := by
  rcases hp : otelResolvedPrompt span m with _ | pv
  · simp only [otelExtractPrompt, hp]
    exact ⟨"", rfl⟩
  · cases pv with
    | arr msgs =>
      simp only [otelPromptOk, hp] at h
      simp only [otelExtractPrompt, hp]
      obtain ⟨f, hf⟩ : ∃ f, (match msgs.head? with
          | some (.str s) => Json.str s
          | _ => Json.str (jsonStringify (.arr msgs))) = .str f := by
        split
        · exact ⟨_, rfl⟩
        · exact ⟨_, rfl⟩
      rcases hu : msgs.find?
          (fun mg => isTypeofObject mg && jGet mg "role" == some (.str "user")) with _ | u
      · refine ⟨f, ?_⟩
        simp only [hu]
        exact hf
      · have hmem := List.mem_of_find?_eq_some hu
        have hpred := List.find?_some hu
        have hok := List.all_eq_true.mp h u hmem
        rw [hpred] at hok
        simp only [Bool.not_true, Bool.false_or] at hok
        simp only [hu]
        rw [hf]
        apply jFirstTruthy_str_of_all
        intro o ho v hov
        simp only [List.mem_cons, List.not_mem_nil, or_false] at ho
        subst ho
        unfold contentOk at hok
        rw [hov] at hok
        exact hok
    | obj pf =>
      simp only [otelPromptOk, hp] at h
      simp only [otelExtractPrompt, hp]
      by_cases hk : hasKey (.obj pf) "messages" = true
      · simp only [isTypeofObject, hk] at h ⊢
        simp only [show ((Json.obj pf == Json.null) = false) from rfl] at h ⊢
        simp only [Bool.not_false, Bool.and_true, Bool.true_and, if_true] at h ⊢
        rcases hm2 : jGet (.obj pf) "messages" with _ | mv2
        · exact ⟨"", rfl⟩
        · cases mv2 with
          | arr ms =>
            rw [hm2] at h
            have h' : ms.all
                (fun mg => !(jGet mg "role" == some (Json.str "user")) || contentOk mg)
                = true := h
            have hall : ∀ o ∈ [(ms.find?
                  (fun mg => jGet mg "role" == some (Json.str "user"))).bind
                  (fun mg => jGet mg "content")],
                ∀ v, o = some v → strOrFalsy v = true := by
              intro o ho v hov
              simp only [List.mem_cons, List.not_mem_nil, or_false] at ho
              subst ho
              obtain ⟨u, hu, hc⟩ := Option.bind_eq_some.mp hov
              have hr0 := List.find?_some hu
              have hr : (jGet u "role" == some (Json.str "user")) = true := hr0
              have hok := List.all_eq_true.mp h' u (List.mem_of_find?_eq_some hu)
              simp only [hr, Bool.not_true, Bool.false_or] at hok
              unfold contentOk at hok
              rw [hc] at hok
              exact hok
            obtain ⟨s, hs⟩ := jFirstTruthy_str_of_all hall
            exact ⟨s, hs⟩
          | null => exact ⟨"", rfl⟩
          | bool b => exact ⟨"", rfl⟩
          | num n => exact ⟨"", rfl⟩
          | str s => exact ⟨"", rfl⟩
          | obj fs2 => exact ⟨"", rfl⟩
      · have hk' : hasKey (.obj pf) "messages" = false := by
          cases hb : hasKey (.obj pf) "messages"
          · rfl
          · exact absurd hb hk
        simp only [isTypeofObject, hk']
        simp only [show ((Json.obj pf == Json.null) = false) from rfl]
        simp only [Bool.not_false, Bool.and_false, Bool.true_and, Bool.false_eq_true, if_false]
        exact ⟨_, rfl⟩
    | null =>
      simp only [otelExtractPrompt, hp]
      simp only [isTypeofObject]
      simp only [show ((Json.null == Json.null) = true) from rfl]
      simp only [Bool.not_true, Bool.false_and, Bool.true_and, Bool.and_false,
        Bool.false_eq_true, if_false]
      exact ⟨_, rfl⟩
    | bool b =>
      simp only [otelExtractPrompt, hp]
      simp only [isTypeofObject, Bool.false_and, Bool.false_eq_true, if_false]
      exact ⟨_, rfl⟩
    | num n =>
      simp only [otelExtractPrompt, hp]
      simp only [isTypeofObject, Bool.false_and, Bool.false_eq_true, if_false]
      exact ⟨_, rfl⟩
    | str s =>
      simp only [otelExtractPrompt, hp]
      simp only [isTypeofObject, Bool.false_and, Bool.false_eq_true, if_false]
      exact ⟨_, rfl⟩

/-- C3 (amended): every record produced by a converting stage — the generic
chain past the pass-through, the LangSmith run converter, and the OTel span
converter — has a string `input.prompt`, provided the uncoerced chat-message
`content` fields that the converters copy verbatim are falsy or strings.
The original claim fails for the pass-through stage, which copies
`input.prompt` from the source verbatim (including `null`), and for
non-string message `content`, which the source's `x || ''` idiom passes
through uncoerced. -/
theorem c3_amended_prompt_string :
    (∀ (env : JsEnv) (data : Json) (n : Nat),
      isReviewItemFormat data = false →
      fineTuneUserContentOk data = true →
      ∃ s, recPrompt (normalizeToReviewItem env data n) = some (.str s))
    ∧ (∀ (env : JsEnv) (run : Json) (ctx : List Json),
      lsPromptOk (jFirstTruthy [jGet run "inputs"] (.obj [])) = true →
      ∃ s, recPrompt (convertRunToReviewItem env run ctx) = some (.str s))
    ∧ (∀ (env : JsEnv) (m : OTelMappingConfig) (ctx : List Json) (span : Json),
      otelPromptOk span m = true →
      ∃ s, recPrompt (convertSpanToReviewItem env m ctx span) = some (.str s)) := by
  refine ⟨?_, ?_, ?_⟩
  · intro env data n hrif hft
    unfold normalizeToReviewItem
    rw [hrif]
    simp only [Bool.false_eq_true, if_false]
    split
    · exact convertOpenAIFormat_prompt_str env data
    · split
      · exact fineTune_prompt_str hft
      · split
        · exact convertGenericFormat_prompt_str env data
        · exact convertBestEffort_prompt_str env data
  · intro env run ctx h
    rw [convertRunToReviewItem_prompt]
    obtain ⟨s, hs⟩ := lsExtractPrompt_str h
    exact ⟨s, by rw [hs]⟩
  · intro env m ctx span h
    rw [convertSpanToReviewItem_prompt]
    obtain ⟨s, hs⟩ := otelExtractPrompt_str h
    exact ⟨s, by rw [hs]⟩

/-- C3 witness: concrete converting-stage inputs — a fine-tune chat object, a
LangSmith chat run, and an OTel span with a flattened message-array prompt
attribute — all satisfy the well-typedness hypotheses and produce a string
prompt. -/
theorem c3_witness :
    (isReviewItemFormat witFineTune = false
      ∧ fineTuneUserContentOk witFineTune = true
      ∧ ∃ s, recPrompt (normalizeToReviewItem witEnv witFineTune 1) = some (.str s))
    ∧ (lsPromptOk (jFirstTruthy [jGet witChatRun "inputs"] (.obj [])) = true
      ∧ ∃ s, recPrompt (convertRunToReviewItem witEnv witChatRun []) = some (.str s))
    ∧ (otelPromptOk witChatSpan witMappings = true
      ∧ ∃ s, recPrompt (convertSpanToReviewItem witEnv witMappings [] witChatSpan)
          = some (.str s)) :=
  ⟨⟨by decide, by decide,
    c3_amended_prompt_string.1 witEnv witFineTune 1 (by decide) (by decide)⟩,
   ⟨by decide,
    c3_amended_prompt_string.2.1 witEnv witChatRun [] (by decide)⟩,
   ⟨by decide,
    c3_amended_prompt_string.2.2 witEnv witMappings [] witChatSpan (by decide)⟩⟩

/-- C3 (counterexample): an already-canonical record whose `input.prompt` is
`null` passes the pass-through check and is normalized to a record whose
`input.prompt` is still `null` — not a string, refuting the claim that every
produced record's `input.prompt` is a string. -/
theorem c3_counterexample :
    isReviewItemFormat cxNullPromptRecord = true
    ∧ recPrompt (normalizeToReviewItem witEnv cxNullPromptRecord 1) = some .null := by
  refine ⟨by decide, by decide⟩

theorem isSomeArrOne_exists {o : Option Json}
    (h : (match o with
          | some (.arr [_]) => true
          | _ => false) = true) :
    ∃ x, o = some (.arr [x]) := by
  match o with
  | some (.arr [x]) => exact ⟨x, rfl⟩
  | some (.arr []) => simp at h
  | some (.arr (_ :: _ :: _)) => simp at h
  | some .null => simp at h
  | some (.bool b) => simp at h
  | some (.num n) => simp at h
  | some (.str s) => simp at h
  | some (.obj fs) => simp at h
  | none => simp at h

theorem convertGenericFormat_outputs (env : JsEnv) (data : Json) :
    ∃ o, jGet (convertGenericFormat env data) "outputs" = some (.arr [o]) := by
  apply isSomeArrOne_exists
  rcases htag : jGet data "tags" with _ | tv
  · simp only [convertGenericFormat, htag]
    simp [jGet, fieldsLookup]
  · cases tv <;>
      (simp only [convertGenericFormat, htag]
       simp [jGet, fieldsLookup])

theorem convertRunToReviewItem_outputs_empty_iff (env : JsEnv) (run : Json)
    (ctx : List Json) :
    (jGet (convertRunToReviewItem env run ctx) "outputs" = some (.arr [])
      ↔ jTruthy (lsExtractResponse (jFirstTruthy [jGet run "outputs"] (.obj [])))
          = false) := by
  by_cases hr : jTruthy (lsExtractResponse (jFirstTruthy [jGet run "outputs"] (.obj [])))
      = true
  · rcases hsn : jGet run "session_name" with _ | v
    · simp only [convertRunToReviewItem, hsn, hr]
      simp [jGet, fieldsLookup, hr]
    · by_cases hv : jTruthy v = true
      · simp only [convertRunToReviewItem, hsn, hv, hr]
        simp [jGet, fieldsLookup, hr]
      · have hv' : jTruthy v = false := by
          cases hb : jTruthy v
          · rfl
          · exact absurd hb hv
        simp only [convertRunToReviewItem, hsn, hv', hr]
        simp [jGet, fieldsLookup, hr]
  · have hr' : jTruthy (lsExtractResponse (jFirstTruthy [jGet run "outputs"] (.obj [])))
        = false := by
      cases hb : jTruthy (lsExtractResponse (jFirstTruthy [jGet run "outputs"] (.obj [])))
      · rfl
      · exact absurd hb hr
    rcases hsn : jGet run "session_name" with _ | v
    · simp only [convertRunToReviewItem, hsn, hr']
      simp [jGet, fieldsLookup, hr']
    · by_cases hv : jTruthy v = true
      · simp only [convertRunToReviewItem, hsn, hv, hr']
        simp [jGet, fieldsLookup, hr']
      · have hv' : jTruthy v = false := by
          cases hb : jTruthy v
          · rfl
          · exact absurd hb hv
        simp only [convertRunToReviewItem, hsn, hv', hr']
        simp [jGet, fieldsLookup, hr']

theorem convertSpanToReviewItem_outputs_empty_iff (env : JsEnv) (m : OTelMappingConfig)
    (ctx : List Json) (span : Json) :
    (jGet (convertSpanToReviewItem env m ctx span) "outputs" = some (.arr [])
      ↔ jTruthy (otelExtractResponse span m) = false) := by
  by_cases hr : jTruthy (otelExtractResponse span m) = true
  · simp only [convertSpanToReviewItem, hr]
    simp [jGet, fieldsLookup, hr]
  · have hr' : jTruthy (otelExtractResponse span m) = false := by
      cases hb : jTruthy (otelExtractResponse span m)
      · rfl
      · exact absurd hb hr
    simp only [convertSpanToReviewItem, hr']
    simp [jGet, fieldsLookup, hr']

/-- C6 (amended): the LangSmith and OTel converters emit an empty `outputs`
array exactly when the extracted response value is falsy; but the LangSmith
response extraction of a run with no usable output fields falls back to
JSON-stringifying the outputs object, yielding the truthy string "\x7b\x7d",
and the generic prompt/response converter unconditionally emits exactly one
output entry whatever the response text — so a record's outputs can be
fabricated even when no response text was extracted. -/
theorem c6_amended_outputs :
    (∀ (env : JsEnv) (run : Json) (ctx : List Json),
      jGet (convertRunToReviewItem env run ctx) "outputs" = some (.arr [])
        ↔ jTruthy (lsExtractResponse (jFirstTruthy [jGet run "outputs"] (.obj [])))
            = false)
    ∧ lsExtractResponse (.obj []) = .str "\x7b\x7d"
    ∧ jTruthy (.str "\x7b\x7d") = true
    ∧ (∀ (env : JsEnv) (data : Json),
      ∃ o, jGet (convertGenericFormat env data) "outputs" = some (.arr [o]))
    ∧ (∀ (env : JsEnv) (m : OTelMappingConfig) (ctx : List Json) (span : Json),
      jGet (convertSpanToReviewItem env m ctx span) "outputs" = some (.arr [])
        ↔ jTruthy (otelExtractResponse span m) = false) :=
  ⟨convertRunToReviewItem_outputs_empty_iff, by decide, by decide,
   convertGenericFormat_outputs, convertSpanToReviewItem_outputs_empty_iff⟩

/-- C6 (counterexample): a generic prompt/response object whose response field
is the empty string produces a record with one (empty-text) output entry, and
a LangSmith run with no usable output fields produces a record with one
fabricated output whose text is the stringified empty outputs object — in
both cases `outputs` is not empty although no response text was extracted. -/
theorem c6_counterexample :
    jGet (normalizeToReviewItem witEnv cxEmptyResponse 1) "outputs"
        = some (.arr [.obj [
            ("model_id", .str "default"),
            ("text", .str ""),
            ("token_usage", .num 0),
            ("latency_ms", .num 0)]])
    ∧ jGet (convertRunToReviewItem witEnv cxBareRun []) "outputs"
        = some (.arr [.obj [
            ("model_id", .str "langsmith"),
            ("text", .str "\x7b\x7d"),
            ("token_usage", .num 0),
            ("latency_ms", .num 0)]]) :=
  ⟨by decide, by decide⟩

/-- C4 (confirmed): leaf-only extraction.  For a LangSmith run tree whose LLM
runs are exactly an outer run and an inner run nested strictly below it, the
leaf search returns exactly the inner run and normalization emits exactly its
record; likewise for an OTel span list whose LLM spans are exactly an outer
span and its child span (the child having no LLM child of its own). -/
theorem c4_leaf_only_extraction :
    (∀ (env : JsEnv) (r outer inner : Json),
      (runNodes r).filter (fun s => isLLMRun s) = [outer, inner] →
      inner ∈ strictDescendants outer →
      findLLMLeafSpans r = [inner]
        ∧ lsNormalizePerRun env r
            = [convertRunToReviewItem env inner
                ((findRelatedRetrieverSpans r).flatMap (extractContextFromRetriever env))])
    ∧ (∀ (env : JsEnv) (m : OTelMappingConfig) (spans : List Json)
        (outer inner : Json) (oid iid : String),
      spans.filter (fun s => isLLMSpan s m) = [outer, inner] →
      jGet outer "spanId" = some (.str oid) →
      jGet inner "spanId" = some (.str iid) →
      oid ≠ "" →
      jGet inner "parentSpanId" = some (.str oid) →
      spans.filter (fun c =>
        match jGet c "parentSpanId" with
        | some p => jTruthy p && p == Json.str iid
        | none => false) = [] →
      findLeafLLMSpans spans m = [inner]
        ∧ otelNormalizeSpans env m spans
            = [convertSpanToReviewItem env m (otelExtractContext env m spans) inner]) := by
  constructor
  · intro env r outer inner hfilter hdesc
    have houter_f : outer ∈ (runNodes r).filter (fun s => isLLMRun s) := by
      rw [hfilter]; exact List.mem_cons_self _ _
    have hinner_f : inner ∈ (runNodes r).filter (fun s => isLLMRun s) := by
      rw [hfilter]; exact List.mem_cons_of_mem _ (List.mem_cons_self _ _)
    have hinner_mem : inner ∈ runNodes r := (List.mem_filter.mp hinner_f).1
    have hinner_llm : isLLMRun inner = true := by
      have := (List.mem_filter.mp hinner_f).2; simpa using this
    have houter_d : hasLLMDescendant outer = true := by
      unfold hasLLMDescendant
      exact List.any_eq_true.mpr ⟨inner, hdesc, hinner_llm⟩
    have hinner_d : hasLLMDescendant inner = false := by
      cases hb : hasLLMDescendant inner
      · rfl
      · exfalso
        obtain ⟨s, hsmem, hsllm⟩ := List.any_eq_true.mp hb
        have hs_rn_inner : s ∈ runNodes inner := by
          rw [runNodes_eq]; exact List.mem_cons_of_mem _ hsmem
        have hs_r : s ∈ runNodes r :=
          runNodes_subset (Json.jsize r) r inner (Nat.le_refl _) hinner_mem s hs_rn_inner
        have hs_f : s ∈ (runNodes r).filter (fun x => isLLMRun x) :=
          List.mem_filter.mpr ⟨hs_r, by simpa using hsllm⟩
        rw [hfilter] at hs_f
        have hslt : Json.jsize s < Json.jsize inner := jsize_of_mem_strictDescendants hsmem
        rcases List.mem_cons.mp hs_f with rfl | hs2
        · have := jsize_of_mem_strictDescendants hdesc
          omega
        · rcases List.mem_cons.mp hs2 with rfl | hnil
          · omega
          · simp at hnil
    have hleaf : findLLMLeafSpans r = [inner] := by
      rw [findLLMLeafSpans_characterization (Json.jsize r) r (Nat.le_refl _)]
      have hsplit : (runNodes r).filter (fun s => isLLMRun s && !hasLLMDescendant s)
          = ((runNodes r).filter (fun s => isLLMRun s)).filter
              (fun s => !hasLLMDescendant s) := by
        rw [List.filter_filter]
        apply List.filter_congr
        intro a _
        exact Bool.and_comm _ _
      rw [hsplit, hfilter]
      simp [List.filter, houter_d, hinner_d]
    refine ⟨hleaf, ?_⟩
    unfold lsNormalizePerRun
    rw [hleaf]
    simp
  · intro env m spans outer inner oid iid hfilter hoid hiid hoid_ne hparent hnochild
    have hinner_f : inner ∈ spans.filter (fun s => isLLMSpan s m) := by
      rw [hfilter]; exact List.mem_cons_of_mem _ (List.mem_cons_self _ _)
    have hinner_mem : inner ∈ spans := (List.mem_filter.mp hinner_f).1
    have hleaf : findLeafLLMSpans spans m = [inner] := by
      simp only [findLeafLLMSpans, hfilter, List.map_cons, List.map_nil]
      rw [List.filter_cons, List.filter_cons, List.filter_nil]
      simp only [hoid, hiid]
      rw [hnochild]
      simp only [List.any_nil, Bool.not_false, if_true]
      simp
      refine ⟨inner, hinner_mem, ?_, ?_⟩
      · simp [hparent, jTruthy, hoid_ne]
      · intro _
        exact hiid
    refine ⟨hleaf, ?_⟩
    have hnonempty : spans.isEmpty = false := by
      cases spans with
      | nil => simp at hinner_mem
      | cons a as => rfl
    simp only [otelNormalizeSpans, hnonempty, hleaf]
    simp

/-- C4 witness: in the concrete nested-LLM run tree and span list, the
hypotheses hold and only the inner unit's record is emitted. -/
theorem c4_witness :
    ((runNodes witOuterRun).filter (fun s => isLLMRun s) = [witOuterRun, witInnerRun]
      ∧ witInnerRun ∈ strictDescendants witOuterRun
      ∧ (findLLMLeafSpans witOuterRun = [witInnerRun]
        ∧ lsNormalizePerRun witEnv witOuterRun
            = [convertRunToReviewItem witEnv witInnerRun
                ((findRelatedRetrieverSpans witOuterRun).flatMap
                  (extractContextFromRetriever witEnv))]))
    ∧ ([witOuterSpan, witInnerSpan].filter (fun s => isLLMSpan s witMappings)
          = [witOuterSpan, witInnerSpan]
      ∧ (findLeafLLMSpans [witOuterSpan, witInnerSpan] witMappings = [witInnerSpan]
        ∧ otelNormalizeSpans witEnv witMappings [witOuterSpan, witInnerSpan]
            = [convertSpanToReviewItem witEnv witMappings
                (otelExtractContext witEnv witMappings [witOuterSpan, witInnerSpan])
                witInnerSpan])) :=
  ⟨⟨by decide, by decide,
    c4_leaf_only_extraction.1 witEnv witOuterRun witOuterRun witInnerRun
      (by decide) (by decide)⟩,
   ⟨by decide,
    c4_leaf_only_extraction.2 witEnv witMappings [witOuterSpan, witInnerSpan]
      witOuterSpan witInnerSpan "o" "i"
      (by decide) (by decide) (by decide) (by decide) (by decide) (by decide)⟩⟩

/-- C5 (amended): the no-LLM fallback converts roots, but only LangSmith
guarantees a record.  A LangSmith run tree with no LLM-classified node is
converted as its root (one record), and LangSmith normalization of a
non-empty run list never returns an empty record list.  The OTel adapter's
last resort instead maps over the spans with a falsy `parentSpanId`: with no
LLM-classified span it produces exactly the root spans' records, which is the
empty list when every span carries a truthy `parentSpanId`. -/
theorem c5_amended_fallback :
    (∀ (env : JsEnv) (r : Json),
      (∀ s ∈ runNodes r, isLLMRun s = false) →
      lsNormalizePerRun env r
        = [convertRunToReviewItem env r
            ((findRelatedRetrieverSpans r).flatMap (extractContextFromRetriever env))])
    ∧ (∀ (env : JsEnv) (data : Json),
      lsExtractRuns data ≠ [] → lsNormalizeList env data ≠ [])
    ∧ (∀ (env : JsEnv) (m : OTelMappingConfig) (spans : List Json),
      spans ≠ [] →
      (∀ s ∈ spans, isLLMSpan s m = false) →
      otelNormalizeSpans env m spans
        = (spans.filter (fun s => !(jOptTruthy (jGet s "parentSpanId")))).map
            (convertSpanToReviewItem env m (otelExtractContext env m spans))) := by
  refine ⟨?_, ?_, ?_⟩
  · intro env r hall
    have hleaf : findLLMLeafSpans r = [] :=
      (findLLMLeafSpans_nil_iff (Json.jsize r) r (Nat.le_refl _)).mpr hall
    unfold lsNormalizePerRun
    rw [hleaf]
    simp
  · intro env data hne hcon
    unfold lsNormalizeList at hcon
    obtain ⟨r, hr⟩ := List.exists_mem_of_ne_nil _ hne
    have h0 := List.flatMap_eq_nil_iff.mp hcon r hr
    simp only [lsNormalizePerRun] at h0
    split at h0
    · simp at h0
    · next hc =>
      rw [List.map_eq_nil_iff] at h0
      rw [h0] at hc
      simp at hc
  · intro env m spans hne hall
    have hfilter : spans.filter (fun s => isLLMSpan s m) = [] :=
      List.filter_eq_nil_iff.mpr (fun s hs => by simp [hall s hs])
    have hleaf : findLeafLLMSpans spans m = [] := by
      unfold findLeafLLMSpans
      rw [hfilter]
      rfl
    have hllmLike : spans.filter (fun s =>
        m.promptAttributes.any (fun k => (getAttribute s [k]).isSome)
        || m.responseAttributes.any (fun k => (getAttribute s [k]).isSome)) = [] := by
      refine List.filter_eq_nil_iff.mpr (fun s hs => ?_)
      have h := hall s hs
      unfold isLLMSpan at h
      simp only [Bool.or_eq_false_iff] at h
      first
        | (obtain ⟨⟨h1, h2⟩, h3⟩ := h
           simp [h2, h3])
        | (obtain ⟨h1, h2, h3⟩ := h
           simp [h2, h3])
    have hempty : spans.isEmpty = false := by
      cases spans with
      | nil => exact absurd rfl hne
      | cons a as => rfl
    simp only [otelNormalizeSpans, hempty, hleaf, hllmLike]
    simp

/-- C5 (counterexample): a bare non-LLM span carrying a truthy
`parentSpanId` is detected as an OTel export and extracts to one span with
zero LLM-classified units, yet the OTel adapter normalizes it to the empty
record list — its no-LLM fallback keeps only spans without a truthy
`parentSpanId`, and there are none. -/
theorem c5_counterexample :
    detectAdapter cxOrphanSpan = some .otel
    ∧ extractSpans cxOrphanSpan = [cxOrphanSpan]
    ∧ (∀ s ∈ extractSpans cxOrphanSpan, isLLMSpan s DEFAULT_OTEL_MAPPINGS = false)
    ∧ otelNormalizeList witEnv DEFAULT_OTEL_MAPPINGS cxOrphanSpan = [] := by
  refine ⟨by decide, by decide, by decide, by decide⟩

/-- C5 witness: a non-LLM LangSmith run converts to exactly its own record
and a one-run list yields a non-empty result; a non-LLM root-only span list
normalizes to exactly its root span's record. -/
theorem c5_witness :
    ((∀ s ∈ runNodes witToolRun, isLLMRun s = false)
      ∧ lsNormalizePerRun witEnv witToolRun
          = [convertRunToReviewItem witEnv witToolRun
              ((findRelatedRetrieverSpans witToolRun).flatMap
                (extractContextFromRetriever witEnv))])
    ∧ (lsExtractRuns (.arr [witToolRun]) ≠ []
      ∧ lsNormalizeList witEnv (.arr [witToolRun]) ≠ [])
    ∧ ((∀ s ∈ [witRootSpan], isLLMSpan s witMappings = false)
      ∧ otelNormalizeSpans witEnv witMappings [witRootSpan]
          = ([witRootSpan].filter (fun s => !(jOptTruthy (jGet s "parentSpanId")))).map
              (convertSpanToReviewItem witEnv witMappings
                (otelExtractContext witEnv witMappings [witRootSpan]))) :=
  ⟨⟨by decide, c5_amended_fallback.1 witEnv witToolRun (by decide)⟩,
   ⟨by decide, c5_amended_fallback.2.1 witEnv (.arr [witToolRun]) (by decide)⟩,
   ⟨by decide, c5_amended_fallback.2.2 witEnv witMappings [witRootSpan]
      (by decide) (by decide)⟩⟩

theorem jTruthy_jSpreadWith (data : Json) (overrides : List (String × Json)) :
    jTruthy (jSpreadWith data overrides) = true := by
  unfold jSpreadWith
  split <;> rfl

theorem normalizeToReviewItem_truthy (env : JsEnv) (data : Json) (n : Nat) :
    jTruthy (normalizeToReviewItem env data n) = true := by
  unfold normalizeToReviewItem
  split
  · unfold passThroughReviewItem
    exact jTruthy_jSpreadWith data _
  · split
    · rfl
    · split
      · rfl
      · split
        · rfl
        · rfl

/-- C8 (confirmed): error isolation in line-delimited imports.  For a payload
whose non-blank lines are exactly three, with lines 1 and 3 parsing to
adapter-undetected generic-format objects and line 2 failing to parse,
the import produces exactly the two records of lines 1 and 3 and exactly one
error carrying 1-based line number 2 — the malformed line neither aborts the
later line nor affects the records of the valid ones. -/
theorem c8_error_isolation (env : JsEnv) (m : OTelMappingConfig)
    (parse : String → Option Json) (text l1 l2 l3 : String) (j1 j3 : Json)
    (hsplit : (jsSplitOnChar '\n' text).filter (fun l => !(jsTrim l == ""))
        = [l1, l2, l3])
    (hp1 : parse l1 = some j1) (hp2 : parse l2 = none) (hp3 : parse l3 = some j3)
    (hd1 : detectAdapter j1 = none) (hd3 : detectAdapter j3 = none)
    (hg1 : isGenericFormat j1 = true) (hg3 : isGenericFormat j3 = true) :
    (parseJsonlLines env m parse text).items
        = [normalizeToReviewItem env j1 1, normalizeToReviewItem env j3 3]
      ∧ (parseJsonlLines env m parse text).errors = [⟨2, "Invalid JSON"⟩] := by
  have henum : [l1, l2, l3].enum = [(0, l1), (1, l2), (2, l3)] := rfl
  have hres : parseJsonlLines env m parse text
      = mkImportResult [normalizeToReviewItem env j1 1, normalizeToReviewItem env j3 3]
          [⟨2, "Invalid JSON"⟩] := by
    simp only [parseJsonlLines, hsplit, henum, List.foldl_cons, List.foldl_nil,
      hp1, hp2, hp3, hd1, hd3, normalizeToReviewItem_truthy, if_true]
    simp
  rw [hres]
  exact ⟨rfl, rfl⟩

/-- C8 witness: the three-line payload "A\nB\nC" under a parse function that
accepts lines "A" and "C" as generic objects and rejects "B" yields exactly
two records and the single error tagged with line 2. -/
theorem c8_witness :
    (parseJsonlLines witEnv witMappings witParse "A\nB\nC").items
        = [normalizeToReviewItem witEnv witLine1 1, normalizeToReviewItem witEnv witLine3 3]
      ∧ (parseJsonlLines witEnv witMappings witParse "A\nB\nC").errors
        = [⟨2, "Invalid JSON"⟩] :=
  c8_error_isolation witEnv witMappings witParse "A\nB\nC" "A" "B" "C"
    witLine1 witLine3 (by decide) (by decide) (by decide) (by decide) (by decide)
    (by decide) (by decide) (by decide)

end LoopDeck
